import Mathlib

/-!
Verification development for the technical-indicator core (`indicators.py`).

Modelling conventions:
* Floating-point cell values are modelled by `PVal`: not-a-number, plus and
  minus infinity, or a finite value represented as an exact rational.  The
  arithmetic on `PVal` follows the IEEE-754 rules pandas/numpy use (`0/0` is
  nan, `x/0` is a signed infinity, nan is absorbing and incomparable).
* A pandas Series is a `List PVal`; raw OHLCV columns are rational-valued and
  are injected with `PVal.val`.
* `rolling(window=p)` is modelled positionally: output `i` is nan for
  `i + 1 < p`, otherwise an aggregate of the window of the `p` entries ending
  at `i`; a window containing a non-finite entry aggregates to nan (raw input
  columns are always finite, so this case is unreachable here).
* `ewm(adjust=False, ignore_na=False).mean()` is modelled by the exact
  recurrence pandas implements, including the `min_periods` mask and the
  weight decay across missing values.
* The float square root inside `rolling.std` is modelled by the computable
  rational square root `Rat.sqrt`; it agrees with the real square root in
  every property used here (nonnegativity, and vanishing exactly on zero).
* Python `round(x, n)` is modelled by `roundQ`/`PVal.pround` (half-up ties;
  the tie-breaking rule is never load-bearing below).
* Chinese message strings from the source are replaced by fixed English
  tokens; only their identity and distinctness matter to the claims.
* Dates are day numbers with day 0 a Thursday (1970-01-01); pandas
  `resample('W')` weeks (Monday..Sunday bins) are `weekIndex d = (d + 3) / 7`.
-/

/-- A pandas float cell: nan, a signed infinity, or a finite rational. -/
inductive PVal where
  | nan : PVal
  | pinf : PVal
  | ninf : PVal
  | val : ℚ → PVal
deriving DecidableEq

/-- IEEE negation. -/
def PVal.neg : PVal → PVal
  | nan => nan
  | pinf => ninf
  | ninf => pinf
  | val a => val (-a)

/-- IEEE addition: nan absorbs, opposite infinities give nan. -/
def PVal.add : PVal → PVal → PVal
  | nan, _ => nan
  | pinf, nan => nan
  | pinf, pinf => pinf
  | pinf, ninf => nan
  | pinf, val _ => pinf
  | ninf, nan => nan
  | ninf, pinf => nan
  | ninf, ninf => ninf
  | ninf, val _ => ninf
  | val _, nan => nan
  | val _, pinf => pinf
  | val _, ninf => ninf
  | val a, val b => val (a + b)

/-- IEEE subtraction. -/
def PVal.sub (x y : PVal) : PVal := PVal.add x (PVal.neg y)

/-- IEEE multiplication: infinity times zero is nan. -/
def PVal.mul : PVal → PVal → PVal
  | nan, _ => nan
  | pinf, nan => nan
  | pinf, pinf => pinf
  | pinf, ninf => ninf
  | pinf, val b => if b = 0 then nan else if 0 < b then pinf else ninf
  | ninf, nan => nan
  | ninf, pinf => ninf
  | ninf, ninf => pinf
  | ninf, val b => if b = 0 then nan else if 0 < b then ninf else pinf
  | val _, nan => nan
  | val a, pinf => if a = 0 then nan else if 0 < a then pinf else ninf
  | val a, ninf => if a = 0 then nan else if 0 < a then ninf else pinf
  | val a, val b => val (a * b)

/-- IEEE division: `0/0` is nan, nonzero over zero is a signed infinity,
finite over infinity is zero, infinity over infinity is nan. -/
def PVal.div : PVal → PVal → PVal
  | nan, _ => nan
  | pinf, nan => nan
  | pinf, pinf => nan
  | pinf, ninf => nan
  | pinf, val b => if 0 ≤ b then pinf else ninf
  | ninf, nan => nan
  | ninf, pinf => nan
  | ninf, ninf => nan
  | ninf, val b => if 0 ≤ b then ninf else pinf
  | val _, nan => nan
  | val _, pinf => val 0
  | val _, ninf => val 0
  | val a, val b =>
    if b = 0 then (if a = 0 then nan else if 0 < a then pinf else ninf)
    else val (a / b)

/-- IEEE strict comparison: any comparison against nan is false. -/
def PVal.ltB : PVal → PVal → Bool
  | nan, _ => false
  | _, nan => false
  | pinf, _ => false
  | ninf, ninf => false
  | ninf, _ => true
  | val _, ninf => false
  | val _, pinf => true
  | val a, val b => decide (a < b)

/-- IEEE non-strict comparison: any comparison against nan is false. -/
def PVal.leB : PVal → PVal → Bool
  | nan, _ => false
  | _, nan => false
  | ninf, _ => true
  | pinf, pinf => true
  | pinf, _ => false
  | val _, pinf => true
  | val _, ninf => false
  | val a, val b => decide (a ≤ b)

/-- IEEE absolute value. -/
def PVal.abs : PVal → PVal
  | nan => nan
  | pinf => pinf
  | ninf => pinf
  | val a => val |a|

/-- Whether a cell counts as an observation for pandas (`x == x`):
true for anything except nan. -/
def PVal.isObs : PVal → Bool
  | nan => false
  | _ => true

/-- Python `round(q, n)` on exact rationals (ties rounded half-up). -/
def roundQ (n : ℕ) (q : ℚ) : ℚ := ((round (q * (10 : ℚ) ^ n) : ℤ) : ℚ) / (10 : ℚ) ^ n

/-- Python `round(x, n)` lifted to float cells (nan and infinities pass through). -/
def PVal.pround (n : ℕ) : PVal → PVal
  | nan => nan
  | pinf => pinf
  | ninf => ninf
  | val a => val (roundQ n a)

/-- Extract the underlying rationals of a series when every cell is finite. -/
def allVals : List PVal → Option (List ℚ)
  | [] => some []
  | PVal.val q :: t => (allVals t).map (fun l => q :: l)
  | _ :: _ => none

/-- pandas `Series.rolling(window=p).agg`: nan until the window is full,
otherwise the aggregate of the trailing `p` entries (nan if any entry in the
window is not finite). -/
def rollingOp (agg : List ℚ → PVal) (p : ℕ) (xs : List PVal) : List PVal :=
  (List.range xs.length).map (fun i =>
    if i + 1 < p then PVal.nan
    else
      match allVals ((xs.take (i + 1)).drop (i + 1 - p)) with
      | some qs => agg qs
      | none => PVal.nan)

/-- Arithmetic mean of a full window. -/
def meanAgg (qs : List ℚ) : PVal := PVal.val (qs.sum / (qs.length : ℚ))

/-- Sample variance (`ddof=1`) of a window. -/
def varOf (qs : List ℚ) : ℚ :=
  (qs.map (fun x => (x - qs.sum / (qs.length : ℚ)) ^ 2)).sum / ((qs.length : ℚ) - 1)

/-- Sample standard deviation (`ddof=1`) of a full window; nan when fewer
than two observations. -/
def stdAgg (qs : List ℚ) : PVal :=
  if qs.length < 2 then PVal.nan
  else PVal.val (Rat.sqrt (varOf qs))

/-- Minimum of a full window. -/
def minAgg (qs : List ℚ) : PVal :=
  match qs with
  | [] => PVal.nan
  | q :: t => PVal.val (t.foldl min q)

/-- Maximum of a full window. -/
def maxAgg (qs : List ℚ) : PVal :=
  match qs with
  | [] => PVal.nan
  | q :: t => PVal.val (t.foldl max q)

/-- The loop body of pandas `ewm(alpha=a, adjust=False, ignore_na=False).mean()`:
state is the running weighted average, the relative weight of the old average,
and the number of observations seen; output is masked to nan until
`min_periods` observations have been consumed. -/
def ewmGo (a : ℚ) (minp : ℕ) : PVal → ℚ → ℕ → List PVal → List PVal
  | _, _, _, [] => []
  | avg, oldWt, nobs, x :: rest =>
    let nobs2 := if x.isObs then nobs + 1 else nobs
    let st : PVal × ℚ :=
      if avg.isObs then
        let ow := oldWt * (1 - a)
        if x.isObs then
          (PVal.div (PVal.add (PVal.mul (PVal.val ow) avg) (PVal.mul (PVal.val a) x))
            (PVal.val (ow + a)), (1 : ℚ))
        else (avg, ow)
      else
        if x.isObs then (x, oldWt) else (avg, oldWt)
    (if minp ≤ nobs2 then st.1 else PVal.nan) :: ewmGo a minp st.1 st.2 nobs2 rest

/-- pandas `Series.ewm(alpha=a, min_periods=minp, adjust=False).mean()`. -/
def ewmMean (a : ℚ) (minp : ℕ) (xs : List PVal) : List PVal :=
  ewmGo a minp PVal.nan 1 0 xs

/-- pandas `Series.diff()`: leading nan, then successive differences. -/
def seriesDiff : List PVal → List PVal
  | [] => []
  | x :: t => PVal.nan :: List.zipWith PVal.sub t (x :: t)

/-- Running cumulative sum of a finite series (pandas `cumsum`). -/
def cumsumQ (l : List ℚ) : List ℚ := (l.scanl (· + ·) 0).tail

/-- One OHLCV record; `date` is a day number (day 0 = Thursday 1970-01-01). -/
structure Bar where
  date : ℕ
  opn : ℚ
  high : ℚ
  low : ℚ
  close : ℚ
  volume : ℚ
deriving DecidableEq

/-- `calculate_ma`: rolling arithmetic mean. -/
def calculate_ma (data : List PVal) (period : ℕ) : List PVal :=
  rollingOp meanAgg period data

/-- `calculate_ema`: `ewm(span=period, adjust=False).mean()`,
so `alpha = 2 / (period + 1)` with no minimum-period mask. -/
def calculate_ema (data : List PVal) (period : ℕ) : List PVal :=
  ewmMean (2 / ((period : ℚ) + 1)) 0 data

/-- Rolling sample standard deviation of the close column. -/
def rolling_std (data : List PVal) (period : ℕ) : List PVal :=
  rollingOp stdAgg period data

/-- Result bag of `calculate_boll`. -/
structure BollResult where
  upper : List PVal
  middle : List PVal
  lower : List PVal
  bandwidth : List PVal
  percent_b : List PVal

/-- `calculate_boll`: middle = MA(period), band = std_dev · rolling std,
bandwidth = (upper−lower)/middle·100, percent_b = (close−lower)/(upper−lower)·100. -/
def calculate_boll (data : List Bar) (period : ℕ) (std_dev : ℚ) : BollResult :=
  let close := data.map (fun b => PVal.val b.close)
  let middle := calculate_ma close period
  let std := rolling_std close period
  let upper := List.zipWith PVal.add middle (std.map (PVal.mul (PVal.val std_dev)))
  let lower := List.zipWith PVal.sub middle (std.map (PVal.mul (PVal.val std_dev)))
  { upper := upper
    middle := middle
    lower := lower
    bandwidth := (List.zipWith PVal.div (List.zipWith PVal.sub upper lower) middle).map
      (fun x => PVal.mul x (PVal.val 100))
    percent_b := (List.zipWith PVal.div (List.zipWith PVal.sub close lower)
      (List.zipWith PVal.sub upper lower)).map (fun x => PVal.mul x (PVal.val 100)) }

/-- `calculate_rsi`: Wilder smoothing, `ewm(com=period-1, min_periods=period,
adjust=False)` on the clipped gains and losses of `diff`. -/
def calculate_rsi (data : List PVal) (period : ℕ) : List PVal :=
  let delta := seriesDiff data
  let gain := delta.map (fun d => if PVal.ltB (PVal.val 0) d then d else PVal.val 0)
  let loss := (delta.map (fun d => if PVal.ltB d (PVal.val 0) then d else PVal.val 0)).map PVal.neg
  let avg_gain := ewmMean (1 / (1 + ((period : ℚ) - 1))) period gain
  let avg_loss := ewmMean (1 / (1 + ((period : ℚ) - 1))) period loss
  let rs := List.zipWith PVal.div avg_gain avg_loss
  rs.map (fun r => PVal.sub (PVal.val 100) (PVal.div (PVal.val 100) (PVal.add (PVal.val 1) r)))

/-- Result bag of `calculate_macd`. -/
structure MacdResult where
  dif : List PVal
  dea : List PVal
  macd : List PVal

/-- `calculate_macd`: DIF = EMA(fast) − EMA(slow), DEA = EMA(DIF, signal),
histogram = 2·(DIF − DEA). -/
def calculate_macd (data : List PVal) (fast slow signal : ℕ) : MacdResult :=
  let ema_fast := calculate_ema data fast
  let ema_slow := calculate_ema data slow
  let dif := List.zipWith PVal.sub ema_fast ema_slow
  let dea := calculate_ema dif signal
  { dif := dif
    dea := dea
    macd := (List.zipWith PVal.sub dif dea).map (PVal.mul (PVal.val 2)) }

/-- The internal RSV series of `calculate_kdj`:
`(close − rolling_min(low, n)) / (rolling_max(high, n) − rolling_min(low, n)) · 100`. -/
def kdj_rsv (data : List Bar) (n : ℕ) : List PVal :=
  let low_min := rollingOp minAgg n (data.map (fun b => PVal.val b.low))
  let high_max := rollingOp maxAgg n (data.map (fun b => PVal.val b.high))
  let close := data.map (fun b => PVal.val b.close)
  (List.zipWith PVal.div (List.zipWith PVal.sub close low_min)
    (List.zipWith PVal.sub high_max low_min)).map (fun x => PVal.mul x (PVal.val 100))

/-- Result bag of `calculate_kdj`. -/
structure KdjResult where
  k : List PVal
  d : List PVal
  j : List PVal

/-- `calculate_kdj`: K = ewm(RSV, com=m1−1), D = ewm(K, com=m2−1), J = 3K − 2D. -/
def calculate_kdj (data : List Bar) (n m1 m2 : ℕ) : KdjResult :=
  let rsv := kdj_rsv data n
  let k := ewmMean (1 / (1 + ((m1 : ℚ) - 1))) 0 rsv
  let d := ewmMean (1 / (1 + ((m2 : ℚ) - 1))) 0 k
  { k := k
    d := d
    j := List.zipWith PVal.sub (k.map (PVal.mul (PVal.val 3))) (d.map (PVal.mul (PVal.val 2))) }

/-- `calculate_obv`: cumulative sum of volume signed by the direction of the
close-to-close change (`np.where(diff > 0, 1, np.where(diff < 0, -1, 0))`). -/
def calculate_obv (data : List Bar) : List ℚ :=
  let close := data.map (fun b => PVal.val b.close)
  let price_change := seriesDiff close
  let direction := price_change.map (fun d =>
    if PVal.ltB (PVal.val 0) d then (1 : ℚ) else if PVal.ltB d (PVal.val 0) then -1 else 0)
  cumsumQ (List.zipWith (fun v dr => v * dr) (data.map (fun b => b.volume)) direction)

/-- Result row of `resample_to_weekly`. -/
structure WeekBar where
  week : ℕ
  opn : ℚ
  high : ℚ
  low : ℚ
  close : ℚ
  volume : ℚ
deriving DecidableEq

/-- Calendar week of a day number under pandas `resample('W')` (weeks are
Monday..Sunday bins; day 0 is a Thursday). -/
def weekIndex (d : ℕ) : ℕ := (d + 3) / 7

/-- One aggregation row of `resample('W').agg(...)`: the bars of calendar
week `w` aggregated as open = first, high = max, low = min, close = last,
volume = sum; `none` for an empty week (such rows are dropped by `dropna`). -/
def weekAgg (data : List Bar) (w : ℕ) : Option WeekBar :=
  match data.filter (fun b => weekIndex b.date == w) with
  | [] => none
  | g0 :: g =>
    some { week := w
           opn := g0.opn
           high := g.foldl (fun m b => max m b.high) g0.high
           low := g.foldl (fun m b => min m b.low) g0.low
           close := ((g0 :: g).getLast (List.cons_ne_nil g0 g)).close
           volume := ((g0 :: g).map (fun b => b.volume)).sum }

/-- `resample_to_weekly`: group daily bars by calendar week; per week
open = first, high = max, low = min, close = last, volume = sum; weeks with
no bars are dropped (`dropna`). -/
def resample_to_weekly (data : List Bar) : List WeekBar :=
  match data with
  | [] => []
  | b0 :: rest =>
    let wmin := rest.foldl (fun m b => min m (weekIndex b.date)) (weekIndex b0.date)
    let wmax := rest.foldl (fun m b => max m (weekIndex b.date)) (weekIndex b0.date)
    (List.range' wmin (wmax + 1 - wmin)).filterMap (weekAgg (b0 :: rest))

/-- Message returned for a detected hammer line. -/
def hammerMsg : String := "hammer line, possible bottom reversal"

/-- Message returned for a detected bullish engulfing pattern. -/
def engulfMsg : String := "bullish engulfing pattern"

/-- Message returned for a detected morning star. -/
def morningStarMsg : String := "morning star pattern, reversal signal"

/-- Hammer test on the latest bar: long lower shadow, tiny upper shadow. -/
def hammerCond (c3 : Bar) : Bool :=
  decide (min c3.opn c3.close - c3.low > |c3.close - c3.opn| * 2) &&
  decide (c3.high - max c3.opn c3.close < |c3.close - c3.opn| * (1/2))

/-- Bullish engulfing test on the last two bars. -/
def engulfCond (c2 c3 : Bar) : Bool :=
  decide (c2.close < c2.opn) && decide (c3.opn < c3.close) &&
  decide (c3.opn < c2.close) && decide (c2.opn < c3.close)

/-- Morning star test on the last three bars. -/
def morningStarCond (c1 c2 c3 : Bar) : Bool :=
  decide (c1.close < c1.opn) &&
  decide (|c2.close - c2.opn| < (c1.high - c1.low) * (3/10)) &&
  decide (c3.opn < c3.close) &&
  decide ((c1.opn + c1.close) / 2 < c3.close)

/-- `detect_bullish_candle_pattern`: examine the last three bars; the source
checks hammer, then bullish engulfing, then morning star, returning as soon
as one matches; `None` when fewer than three bars or no pattern. -/
def detect_bullish_candle_pattern (df : List Bar) : Option String :=
  match df.reverse with
  | c3 :: c2 :: c1 :: _ =>
    if hammerCond c3 then some hammerMsg
    else if engulfCond c2 c3 then some engulfMsg
    else if morningStarCond c1 c2 c3 then some morningStarMsg
    else none
  | _ => none

/-- Modelled from the claim wording of C1 (not from the source): every
condition is evaluated and the last-evaluated true condition wins, i.e.
morning star over bullish engulfing over hammer. -/
def candle_pattern_last_wins (df : List Bar) : Option String :=
  match df.reverse with
  | c3 :: c2 :: c1 :: _ =>
    if morningStarCond c1 c2 c3 then some morningStarMsg
    else if engulfCond c2 c3 then some engulfMsg
    else if hammerCond c3 then some hammerMsg
    else none
  | _ => none

/-- Spec-side first-match formulation for the amended C1: the three condition,
message pairs are scanned in source order and the first true condition's
message is returned. -/
def candle_pattern_first_match (df : List Bar) : Option String :=
  match df.reverse with
  | c3 :: c2 :: c1 :: _ =>
    ([(hammerCond c3, hammerMsg), (engulfCond c2 c3, engulfMsg),
      (morningStarCond c1 c2 c3, morningStarMsg)].find? (fun p => p.1)).map (fun p => p.2)
  | _ => none

/-- Divergence result: a type tag, a description, and an optional strength. -/
structure Divergence where
  dtype : String
  description : String
  strength : Option String
deriving DecidableEq

/-- Sentinel description when fewer than 30 bars are available. -/
def insufficientMsg : String := "insufficient data"

/-- Description when no divergence is found. -/
def noDivMsg : String := "no obvious divergence detected"

/-- Description of a top divergence. -/
def topDivMsg : String := "price made new high but MACD did not, possible top"

/-- Description of a bottom divergence. -/
def bottomDivMsg : String := "price made new low but MACD did not, possible bottom"

/-- Local-high test at index `i` of a rational series (strictly above both
two left and two right neighbours). -/
def localHighAt (v : List ℚ) (i : ℕ) : Bool :=
  decide (v.getD (i-1) 0 < v.getD i 0) && decide (v.getD (i-2) 0 < v.getD i 0) &&
  decide (v.getD (i+1) 0 < v.getD i 0) && decide (v.getD (i+2) 0 < v.getD i 0)

/-- Local-low test at index `i` of a rational series. -/
def localLowAt (v : List ℚ) (i : ℕ) : Bool :=
  decide (v.getD i 0 < v.getD (i-1) 0) && decide (v.getD i 0 < v.getD (i-2) 0) &&
  decide (v.getD i 0 < v.getD (i+1) 0) && decide (v.getD i 0 < v.getD (i+2) 0)

/-- `detect_macd_divergence`: compare the two most recent local price extrema
of the trailing window (20 bars daily, 12 weekly) against DIF at the same
positions. -/
def detect_macd_divergence (df : List Bar) (period_type : String) : Divergence :=
  if df.length < 30 then { dtype := "none", description := insufficientMsg, strength := none }
  else
    let close := df.map (fun b => b.close)
    let dif := (calculate_macd (df.map (fun b => PVal.val b.close)) 12 26 9).dif
    let lookback := if period_type = "daily" then 20 else 12
    let recent_close := close.drop (close.length - lookback)
    let recent_dif := dif.drop (dif.length - lookback)
    let idxs := List.range' 2 (recent_close.length - 4)
    let hi := idxs.filter (fun i => localHighAt recent_close i)
    let lo := idxs.filter (fun i => localLowAt recent_close i)
    let price_highs := hi.map (fun i => recent_close.getD i 0)
    let dif_at_highs := hi.map (fun i => recent_dif.getD i PVal.nan)
    let price_lows := lo.map (fun i => recent_close.getD i 0)
    let dif_at_lows := lo.map (fun i => recent_dif.getD i PVal.nan)
    if 2 ≤ price_highs.length ∧ 2 ≤ dif_at_highs.length ∧
        price_highs.getD (price_highs.length - 2) 0 < price_highs.getD (price_highs.length - 1) 0 ∧
        PVal.ltB (dif_at_highs.getD (dif_at_highs.length - 1) PVal.nan)
          (dif_at_highs.getD (dif_at_highs.length - 2) PVal.nan) then
      { dtype := "top divergence", description := topDivMsg
        strength := some (if PVal.ltB (dif_at_highs.getD (dif_at_highs.length - 1) PVal.nan)
            (PVal.mul (dif_at_highs.getD (dif_at_highs.length - 2) PVal.nan) (PVal.val (8/10)))
          then "strong" else "weak") }
    else if 2 ≤ price_lows.length ∧ 2 ≤ dif_at_lows.length ∧
        price_lows.getD (price_lows.length - 1) 0 < price_lows.getD (price_lows.length - 2) 0 ∧
        PVal.ltB (dif_at_lows.getD (dif_at_lows.length - 2) PVal.nan)
          (dif_at_lows.getD (dif_at_lows.length - 1) PVal.nan) then
      { dtype := "bottom divergence", description := bottomDivMsg
        strength := some (if PVal.ltB (PVal.mul (dif_at_lows.getD (dif_at_lows.length - 2) PVal.nan)
              (PVal.val (12/10)))
            (dif_at_lows.getD (dif_at_lows.length - 1) PVal.nan)
          then "strong" else "weak") }
    else { dtype := "none", description := noDivMsg, strength := none }

/-- Minimum of a rational list (0 on the empty list, which is unreachable at
its call sites). -/
def listMinQ : List ℚ → ℚ
  | [] => 0
  | q :: t => t.foldl min q

/-- Maximum of a rational list (0 on the empty list). -/
def listMaxQ : List ℚ → ℚ
  | [] => 0
  | q :: t => t.foldl max q

/-- Result bag of `find_support_resistance`. -/
structure SRResult where
  supports : List ℚ
  resistances : List ℚ
  nearest_support : ℚ
  nearest_resistance : ℚ
  ma20 : PVal
  ma60 : PVal
  period_high : ℚ
  period_low : ℚ

/-- `find_support_resistance`: local lows below the latest close, sorted
descending, are supports; local highs above it, sorted ascending, are
resistances; window extremes are the fallback; MA20/MA60 are added as
dynamic levels. -/
def find_support_resistance (df : List Bar) (lookback : ℕ) : SRResult :=
  let lb := if df.length < lookback then df.length else lookback
  let recent := df.drop (df.length - lb)
  let close := recent.map (fun b => b.close)
  let high := recent.map (fun b => b.high)
  let low := recent.map (fun b => b.low)
  let latest_price := close.getLastD 0
  let idxs := List.range' 2 (recent.length - 4)
  let highs := (idxs.filter (fun i => localHighAt high i)).map (fun i => high.getD i 0)
  let lows := (idxs.filter (fun i => localLowAt low i)).map (fun i => low.getD i 0)
  let supports := (lows.filter (fun l => decide (l < latest_price))).mergeSort
    (fun a b => decide (b ≤ a))
  let resistances := (highs.filter (fun h => decide (latest_price < h))).mergeSort
    (fun a b => decide (a ≤ b))
  let closeP := recent.map (fun b => PVal.val b.close)
  let ma20 := (calculate_ma closeP 20).getLastD PVal.nan
  let ma60 := if 60 < close.length then
      (calculate_ma closeP (min 60 (close.length - 1))).getLastD PVal.nan
    else ma20
  { supports := if supports.isEmpty then [listMinQ low] else supports.take 3
    resistances := if resistances.isEmpty then [listMaxQ high] else resistances.take 3
    nearest_support := if supports.isEmpty then listMinQ low else supports.headD 0
    nearest_resistance := if resistances.isEmpty then listMaxQ high else resistances.headD 0
    ma20 := PVal.pround 4 ma20
    ma60 := PVal.pround 4 ma60
    period_high := roundQ 4 (listMaxQ high)
    period_low := roundQ 4 (listMinQ low) }

/-- Result bag of `calculate_period_score`. -/
structure PeriodScore where
  score : ℤ
  details : List String
  rsi : PVal
  percent_b : PVal
  dif : PVal
  dea : PVal
  ma5 : PVal
  ma10 : PVal
  ma20 : PVal
  vol_ratio_pv : PVal

/-- `calculate_period_score`: weighted single-period technical score
(BOLL 35, volume 20, RSI 15, MACD 15, MA 15); `None` below 20 bars.
The `volume_ratio` of the source is named `vol_ratio_pv` here. -/
def calculate_period_score (df : List Bar) : Option PeriodScore :=
  if df.length < 20 then none
  else
    let close := df.map (fun b => PVal.val b.close)
    let volume := df.map (fun b => PVal.val b.volume)
    let latest_price := (df.map (fun b => b.close)).getLastD 0
    let ma5 := (calculate_ma close 5).getLastD PVal.nan
    let ma10 := (calculate_ma close 10).getLastD PVal.nan
    let ma20 := (calculate_ma close 20).getLastD PVal.nan
    let ma60 := if 60 < df.length then
        (calculate_ma close (min 60 (df.length - 1))).getLastD PVal.nan
      else ma20
    let macd := calculate_macd close 12 26 9
    let dif := macd.dif.getLastD PVal.nan
    let dea := macd.dea.getLastD PVal.nan
    let rsi_14 := (calculate_rsi close 14).getLastD PVal.nan
    let boll := calculate_boll df 20 2
    let percent_b := boll.percent_b.getLastD PVal.nan
    let vol_ma5 := (calculate_ma volume 5).getLastD PVal.nan
    let vol_ma20 := if 20 < df.length then
        (calculate_ma volume (min 20 (df.length - 1))).getLastD PVal.nan
      else vol_ma5
    let current_vol := (df.map (fun b => b.volume)).getLastD 0
    let vol_ratio_v := if PVal.ltB (PVal.val 0) vol_ma5 then
        PVal.div (PVal.val current_vol) vol_ma5
      else PVal.val 1
    let vol_trend := if PVal.ltB (PVal.val 0) vol_ma20 then PVal.div vol_ma5 vol_ma20
      else PVal.val 1
    let boll_part : ℤ × List String :=
      if PVal.ltB percent_b (PVal.val 10) then (35, ["BOLL deeply oversold"])
      else if PVal.ltB percent_b (PVal.val 20) then (25, ["BOLL near lower band"])
      else if PVal.ltB percent_b (PVal.val 35) then (15, ["BOLL leaning lower"])
      else if PVal.ltB (PVal.val 90) percent_b then (-35, ["BOLL deeply overbought"])
      else if PVal.ltB (PVal.val 80) percent_b then (-25, ["BOLL near upper band"])
      else if PVal.ltB (PVal.val 65) percent_b then (-15, ["BOLL leaning upper"])
      else (0, [])
    let volm_part : ℤ :=
      if PVal.ltB (PVal.val 2) vol_ratio_v ∧ PVal.ltB ma5 (PVal.val latest_price) then 20
      else if PVal.ltB (PVal.val (3/2)) vol_ratio_v ∧ PVal.ltB ma5 (PVal.val latest_price) then 15
      else if PVal.ltB (PVal.val 2) vol_ratio_v ∧ PVal.ltB (PVal.val latest_price) ma5 then -20
      else if PVal.ltB (PVal.val (3/2)) vol_ratio_v ∧ PVal.ltB (PVal.val latest_price) ma5 then -15
      else if PVal.ltB (PVal.val (6/5)) vol_trend then 5
      else if PVal.ltB vol_trend (PVal.val (4/5)) then -5
      else 0
    let rsi_part : ℤ × List String :=
      if PVal.ltB rsi_14 (PVal.val 20) then (15, ["RSI deeply oversold"])
      else if PVal.ltB rsi_14 (PVal.val 30) then (10, ["RSI oversold"])
      else if PVal.ltB (PVal.val 80) rsi_14 then (-15, ["RSI deeply overbought"])
      else if PVal.ltB (PVal.val 70) rsi_14 then (-10, ["RSI overbought"])
      else if PVal.ltB (PVal.val 50) rsi_14 then (5, [])
      else (-5, [])
    let macd_part : ℤ × List String :=
      if PVal.ltB dea dif ∧ PVal.ltB (PVal.val 0) dif then (15, ["MACD golden cross above zero"])
      else if PVal.ltB dea dif ∧ PVal.ltB dif (PVal.val 0) then (8, ["MACD golden cross below zero"])
      else if PVal.ltB dif dea ∧ PVal.ltB dif (PVal.val 0) then (-15, ["MACD death cross below zero"])
      else if PVal.ltB dif dea ∧ PVal.ltB (PVal.val 0) dif then (-8, ["MACD death cross above zero"])
      else (0, [])
    let ma_part : ℤ × List String :=
      if PVal.ltB ma5 (PVal.val latest_price) ∧ PVal.ltB ma10 ma5 ∧ PVal.ltB ma20 ma10 ∧
          PVal.ltB ma60 ma20 then (15, ["MA bullish alignment"])
      else if PVal.ltB ma5 (PVal.val latest_price) ∧ PVal.ltB ma10 ma5 ∧ PVal.ltB ma20 ma10 then
        (10, ["short-term bullish"])
      else if PVal.ltB (PVal.val latest_price) ma5 ∧ PVal.ltB ma5 ma10 ∧ PVal.ltB ma10 ma20 ∧
          PVal.ltB ma20 ma60 then (-15, ["MA bearish alignment"])
      else if PVal.ltB (PVal.val latest_price) ma5 ∧ PVal.ltB ma5 ma10 ∧ PVal.ltB ma10 ma20 then
        (-10, ["short-term bearish"])
      else (0, ["MA entangled"])
    some { score := boll_part.1 + volm_part + rsi_part.1 + macd_part.1 + ma_part.1
           details := boll_part.2 ++ rsi_part.2 ++ macd_part.2 ++ ma_part.2
           rsi := rsi_14
           percent_b := percent_b
           dif := dif
           dea := dea
           ma5 := ma5
           ma10 := ma10
           ma20 := ma20
           vol_ratio_pv := vol_ratio_v }

/-- Result bag of `analyze_weekly_trend`. -/
structure WeeklyTrend where
  trend_type : String
  trend_strength : ℤ
  signals : List String
  operation : String
  ma5 : PVal
  ma20 : PVal
  ma60 : PVal
  ma20_slope : PVal
  ma60_slope : PVal
  price_vs_ma20 : PVal
  price_vs_ma60 : PVal
  macd_dif : PVal
  macd_dea : PVal
  macd_hist : PVal
  macd_pos : String
  macd_cross : String
  divergence : Divergence

/-- `analyze_weekly_trend`: the MA20/MA60 regime decision tree on weekly bars
with MACD confirmation; the error dictionary returned below 60 bars is
modelled as `none`.  The `macd_position` field of the source is `macd_pos`. -/
def analyze_weekly_trend (df : List Bar) : Option WeeklyTrend :=
  if df.length < 60 then none
  else
    let close := df.map (fun b => PVal.val b.close)
    let latest_price := (df.map (fun b => b.close)).getLastD 0
    let ma20 := calculate_ma close 20
    let ma60 := calculate_ma close 60
    let ma5 := calculate_ma close 5
    let ma20_current := ma20.getLastD PVal.nan
    let ma60_current := ma60.getLastD PVal.nan
    let ma5_current := ma5.getLastD PVal.nan
    let ma20_slope := if 5 ≤ ma20.length then
        PVal.mul (PVal.div (PVal.sub ma20_current (ma20.getD (ma20.length - 5) PVal.nan))
          (ma20.getD (ma20.length - 5) PVal.nan)) (PVal.val 100)
      else PVal.val 0
    let ma60_slope := if 5 ≤ ma60.length then
        PVal.mul (PVal.div (PVal.sub ma60_current (ma60.getD (ma60.length - 5) PVal.nan))
          (ma60.getD (ma60.length - 5) PVal.nan)) (PVal.val 100)
      else PVal.val 0
    let macd := calculate_macd close 12 26 9
    let dif := macd.dif.getLastD PVal.nan
    let dea := macd.dea.getLastD PVal.nan
    let macd_hist := macd.macd.getLastD PVal.nan
    let price_above_ma20 := PVal.ltB ma20_current (PVal.val latest_price)
    let price_above_ma60 := PVal.ltB ma60_current (PVal.val latest_price)
    let ma20_above_ma60 := PVal.ltB ma60_current ma20_current
    let tt : String × ℤ × List String :=
      if price_above_ma20 ∧ price_above_ma60 ∧ ma20_above_ma60 then
        if PVal.ltB (PVal.val (1/2)) ma20_slope ∧ PVal.ltB (PVal.val 0) ma60_slope then
          ("strong bull", 80, ["price above MA20 and MA60",
            "MA20 above MA60, bullish MA alignment", "MA20 fanning upward"])
        else ("bull trend", 60, ["bullish MA alignment"])
      else if (!price_above_ma20) ∧ (!price_above_ma60) ∧ (!ma20_above_ma60) then
        if PVal.ltB ma20_slope (PVal.val (-(1/2))) ∧ PVal.ltB ma60_slope (PVal.val 0) then
          ("strong bear", -80, ["price below MA20 and MA60",
            "MA20 below MA60, bearish MA alignment", "MA20 fanning downward"])
        else ("bear trend", -60, ["bearish MA alignment"])
      else if price_above_ma20 ∧ (!ma20_above_ma60) then
        ("bottom reversing", 30, ["price above MA20 but MA20 still below MA60",
          "possible early bottom reversal"])
      else if (!price_above_ma20) ∧ ma20_above_ma60 then
        ("top pulling back", -30, ["price broke MA20 but MA20 still above MA60",
          "possible top pullback"])
      else ("ranging", 0, ["MAs entangled, no clear direction"])
    let macd_pos := if PVal.ltB (PVal.val 0) dif then "above zero axis" else "below zero axis"
    let macd_cross := if PVal.ltB dea dif then "golden cross" else "death cross"
    let conf : ℤ × List String :=
      if PVal.ltB (PVal.val 0) dif ∧ PVal.ltB dea dif then
        (min 100 (tt.2.1 + 15), ["MACD momentum up"])
      else if PVal.ltB dif (PVal.val 0) ∧ PVal.ltB dif dea then
        (max (-100) (tt.2.1 - 15), ["MACD momentum down"])
      else (tt.2.1, ["MACD neutral"])
    let divergence := detect_macd_divergence df "weekly"
    let divSig : List String := if divergence.dtype ≠ "none" then ["weekly MACD divergence"] else []
    let trend_strength := conf.1
    let operation :=
      if 60 ≤ trend_strength then "long only, wait for daily pullback to buy"
      else if 30 ≤ trend_strength then "lean long, light probing buys"
      else if trend_strength ≤ -60 then "stay out, wait for bottoming signal"
      else if trend_strength ≤ -30 then "reduce or wait, trade cautiously"
      else "wait and see, direction unclear"
    some { trend_type := tt.1
           trend_strength := trend_strength
           signals := tt.2.2 ++ conf.2 ++ divSig
           operation := operation
           ma5 := PVal.pround 4 ma5_current
           ma20 := PVal.pround 4 ma20_current
           ma60 := PVal.pround 4 ma60_current
           ma20_slope := PVal.pround 2 ma20_slope
           ma60_slope := PVal.pround 2 ma60_slope
           price_vs_ma20 := PVal.pround 2 (PVal.mul (PVal.div
             (PVal.sub (PVal.val latest_price) ma20_current) ma20_current) (PVal.val 100))
           price_vs_ma60 := PVal.pround 2 (PVal.mul (PVal.div
             (PVal.sub (PVal.val latest_price) ma60_current) ma60_current) (PVal.val 100))
           macd_dif := PVal.pround 4 dif
           macd_dea := PVal.pround 4 dea
           macd_hist := PVal.pround 4 macd_hist
           macd_pos := macd_pos
           macd_cross := macd_cross
           divergence := divergence }

/-- Result bag of `analyze_daily_buy_signals`. -/
structure BuySignals where
  signal_strength : ℤ
  signals : List String
  recommendation : String
  ma5 : PVal
  ma10 : PVal
  ma20 : PVal
  ma60 : PVal
  ema50 : PVal
  macd_dif : PVal
  macd_dea : PVal
  kdj_k : PVal
  kdj_d : PVal
  kdj_j : PVal
  rsi_14 : PVal
  boll_lower : PVal
  percent_b : PVal
  vol_ratio_pv : PVal
  divergence : Divergence

/-- `analyze_daily_buy_signals`: accumulate the buy-signal strength from the
independent checks of the source; the error dictionary returned below 60 bars
is modelled as `none`.  Optional floats follow Python truthiness: a supplied
value of 0 is treated as absent. -/
def analyze_daily_buy_signals (df : List Bar) (weekly_support weekly_ma20 : Option ℚ) :
    Option BuySignals :=
  if df.length < 60 then none
  else
    let close := df.map (fun b => PVal.val b.close)
    let volume := df.map (fun b => PVal.val b.volume)
    let latest_price := (df.map (fun b => b.close)).getLastD 0
    let ma5 := (calculate_ma close 5).getLastD PVal.nan
    let ma10 := (calculate_ma close 10).getLastD PVal.nan
    let ma20v := (calculate_ma close 20).getLastD PVal.nan
    let ma50 := if 50 ≤ df.length then (calculate_ma close 50).getLastD PVal.nan else ma20v
    let ma60v := if 60 ≤ df.length then (calculate_ma close 60).getLastD PVal.nan else ma50
    let ema50 := (calculate_ema close 50).getLastD PVal.nan
    let macd := calculate_macd close 12 26 9
    let dif := macd.dif.getLastD PVal.nan
    let dea := macd.dea.getLastD PVal.nan
    let prev_dif := macd.dif.getD (macd.dif.length - 2) PVal.nan
    let prev_dea := macd.dea.getD (macd.dea.length - 2) PVal.nan
    let kdj := calculate_kdj df 9 3 3
    let k := kdj.k.getLastD PVal.nan
    let d := kdj.d.getLastD PVal.nan
    let j := kdj.j.getLastD PVal.nan
    let prev_k := kdj.k.getD (kdj.k.length - 2) PVal.nan
    let prev_d := kdj.d.getD (kdj.d.length - 2) PVal.nan
    let rsi_14 := (calculate_rsi close 14).getLastD PVal.nan
    let boll := calculate_boll df 20 2
    let boll_lower := boll.lower.getLastD PVal.nan
    let percent_b := boll.percent_b.getLastD PVal.nan
    let vol_ma5 := (calculate_ma volume 5).getLastD PVal.nan
    let current_vol := (df.map (fun b => b.volume)).getLastD 0
    let vol_ratio_v := if PVal.ltB (PVal.val 0) vol_ma5 then
        PVal.div (PVal.val current_vol) vol_ma5
      else PVal.val 1
    let sig1a : ℤ × List String :=
      match weekly_support with
      | some ws => if ws ≠ 0 ∧ |latest_price - ws| / ws < 1/50 then
          (20, ["price near weekly key support"]) else (0, [])
      | none => (0, [])
    let sig1b : ℤ × List String :=
      match weekly_ma20 with
      | some wm => if wm ≠ 0 ∧ |latest_price - wm| / wm < 1/50 then
          (15, ["price retesting weekly MA20"]) else (0, [])
      | none => (0, [])
    let sig1c : ℤ × List String :=
      if PVal.ltB (PVal.div (PVal.abs (PVal.sub (PVal.val latest_price) ema50)) ema50)
          (PVal.val (3/200)) then (10, ["price retesting daily EMA50"])
      else (0, [])
    let divergence := detect_macd_divergence df "daily"
    let sig2a : ℤ × List String :=
      if divergence.dtype = "bottom divergence" then
        (if divergence.strength = some "strong" then 25 else 15, ["daily MACD bottom divergence"])
      else (0, [])
    let sig2b : ℤ × List String :=
      if PVal.ltB dea dif ∧ PVal.leB prev_dif prev_dea then
        (15, ["daily MACD fresh golden cross"])
      else if PVal.ltB prev_dif dif ∧ PVal.ltB dif dea then
        (10, ["daily MACD DIF turning up, golden cross imminent"])
      else (0, [])
    let kdj_oversold := PVal.ltB j (PVal.val 20)
    let kdj_golden_cross := PVal.ltB d k && PVal.leB prev_k prev_d
    let sig3a : ℤ × List String :=
      if kdj_oversold then (10, ["KDJ in oversold zone"]) else (0, [])
    let sig3b : ℤ × List String :=
      if kdj_golden_cross ∧ PVal.ltB j (PVal.val 30) then
        (20, ["KDJ oversold golden cross, buy signal"])
      else if kdj_golden_cross then (10, ["KDJ golden cross"])
      else (0, [])
    let sig4 : ℤ × List String :=
      if PVal.ltB rsi_14 (PVal.val 30) then (15, ["RSI oversold"])
      else if PVal.ltB rsi_14 (PVal.val 40) then (5, ["RSI weak"])
      else (0, [])
    let sig5 : ℤ × List String :=
      if PVal.ltB percent_b (PVal.val 10) then (15, ["price touching BOLL lower band"])
      else if PVal.ltB percent_b (PVal.val 20) then (10, ["price near BOLL lower band"])
      else (0, [])
    let sig6 : ℤ × List String :=
      if PVal.ltB vol_ratio_v (PVal.val (3/5)) then
        (10, ["volume sharply contracting, sellers exhausted"])
      else if PVal.ltB vol_ratio_v (PVal.val (4/5)) then (5, ["volume contracting"])
      else (0, [])
    let sig7 : ℤ × List String :=
      match detect_bullish_candle_pattern df with
      | some s => (10, [s])
      | none => (0, [])
    let total := sig1a.1 + sig1b.1 + sig1c.1 + sig2a.1 + sig2b.1 + sig3a.1 + sig3b.1 +
      sig4.1 + sig5.1 + sig6.1 + sig7.1
    let signal_strength := min 100 total
    let recommendation :=
      if 70 ≤ signal_strength then "strong buy signal, consider a 40 percent entry"
      else if 50 ≤ signal_strength then "fairly strong buy signal, light probe"
      else if 30 ≤ signal_strength then "average signal, keep watching"
      else "insufficient buy signal, keep waiting"
    some { signal_strength := signal_strength
           signals := sig1a.2 ++ sig1b.2 ++ sig1c.2 ++ sig2a.2 ++ sig2b.2 ++ sig3a.2 ++
             sig3b.2 ++ sig4.2 ++ sig5.2 ++ sig6.2 ++ sig7.2
           recommendation := recommendation
           ma5 := PVal.pround 4 ma5
           ma10 := PVal.pround 4 ma10
           ma20 := PVal.pround 4 ma20v
           ma60 := PVal.pround 4 ma60v
           ema50 := PVal.pround 4 ema50
           macd_dif := PVal.pround 4 dif
           macd_dea := PVal.pround 4 dea
           kdj_k := PVal.pround 1 k
           kdj_d := PVal.pround 1 d
           kdj_j := PVal.pround 1 j
           rsi_14 := PVal.pround 1 rsi_14
           boll_lower := PVal.pround 4 boll_lower
           percent_b := PVal.pround 1 percent_b
           vol_ratio_pv := PVal.pround 2 vol_ratio_v
           divergence := divergence }

/-- Result bag of `analyze_daily_sell_signals`. -/
structure SellSignals where
  signal_strength : ℤ
  signals : List String
  recommendation : String
  stop_loss : Option ℚ
  take_profit : Option ℚ
  divergence : Divergence
  ma5 : PVal
  ma10 : PVal
  macd_dif : PVal
  macd_dea : PVal
  kdj_k : PVal
  kdj_d : PVal
  kdj_j : PVal
  rsi_14 : PVal
  percent_b : PVal

/-- `analyze_daily_sell_signals`: accumulate the sell-signal strength; with a
(truthy, i.e. nonzero) entry price also compute the fixed stop loss at 96
percent of entry and the profit-dependent take-profit; the error dictionary
returned below 30 bars is modelled as `none`. -/
def analyze_daily_sell_signals (df : List Bar) (entry_price weekly_resistance : Option ℚ) :
    Option SellSignals :=
  if df.length < 30 then none
  else
    let close := df.map (fun b => PVal.val b.close)
    let latest_price := (df.map (fun b => b.close)).getLastD 0
    let ma5 := (calculate_ma close 5).getLastD PVal.nan
    let ma10 := (calculate_ma close 10).getLastD PVal.nan
    let macd := calculate_macd close 12 26 9
    let dif := macd.dif.getLastD PVal.nan
    let dea := macd.dea.getLastD PVal.nan
    let prev_dif := macd.dif.getD (macd.dif.length - 2) PVal.nan
    let prev_dea := macd.dea.getD (macd.dea.length - 2) PVal.nan
    let kdj := calculate_kdj df 9 3 3
    let k := kdj.k.getLastD PVal.nan
    let d := kdj.d.getLastD PVal.nan
    let j := kdj.j.getLastD PVal.nan
    let prev_k := kdj.k.getD (kdj.k.length - 2) PVal.nan
    let prev_d := kdj.d.getD (kdj.d.length - 2) PVal.nan
    let rsi_14 := (calculate_rsi close 14).getLastD PVal.nan
    let boll := calculate_boll df 20 2
    let percent_b := boll.percent_b.getLastD PVal.nan
    let sig1 : ℤ × List String :=
      match weekly_resistance with
      | some wr => if wr ≠ 0 ∧ wr * (49/50) ≤ latest_price then
          (20, ["price near weekly resistance"]) else (0, [])
      | none => (0, [])
    let divergence := detect_macd_divergence df "daily"
    let sig2a : ℤ × List String :=
      if divergence.dtype = "top divergence" then
        (if divergence.strength = some "strong" then 25 else 15, ["daily MACD top divergence"])
      else (0, [])
    let sig2b : ℤ × List String :=
      if PVal.ltB dif dea ∧ PVal.leB prev_dea prev_dif then (15, ["daily MACD death cross"])
      else if PVal.ltB dif prev_dif ∧ PVal.ltB dea dif then
        (10, ["daily MACD DIF turning down"])
      else (0, [])
    let sig3a : ℤ × List String :=
      if PVal.ltB (PVal.val 80) j then (10, ["KDJ in overbought zone"]) else (0, [])
    let sig3b : ℤ × List String :=
      if PVal.ltB k d ∧ PVal.leB prev_d prev_k ∧ PVal.ltB (PVal.val 70) j then
        (20, ["KDJ overbought death cross, sell signal"])
      else if PVal.ltB k d ∧ PVal.leB prev_d prev_k then (10, ["KDJ death cross"])
      else (0, [])
    let sig4 : ℤ × List String :=
      if PVal.ltB (PVal.val 80) rsi_14 then (15, ["RSI severely overbought"])
      else if PVal.ltB (PVal.val 70) rsi_14 then (10, ["RSI overbought"])
      else (0, [])
    let sig5 : ℤ × List String :=
      if PVal.ltB (PVal.val 95) percent_b then (15, ["price touching BOLL upper band"])
      else if PVal.ltB (PVal.val 80) percent_b then (10, ["price near BOLL upper band"])
      else (0, [])
    let sig6a : ℤ × List String :=
      if PVal.ltB (PVal.val latest_price) ma5 then (10, ["price broke below MA5"]) else (0, [])
    let sig6b : ℤ × List String :=
      if PVal.ltB (PVal.val latest_price) ma10 then (10, ["price broke below MA10"]) else (0, [])
    let sl_tp : Option ℚ × Option ℚ × List String :=
      match entry_price with
      | some e =>
        if e ≠ 0 then
          let profit_pct := (latest_price - e) / e * 100
          if 15 ≤ profit_pct then
            (some (roundQ 4 (e * (96/100))), some (roundQ 4 (e * (110/100))),
              ["take profit raised to entry plus 10 percent"])
          else if 10 ≤ profit_pct then
            (some (roundQ 4 (e * (96/100))), some e, ["stop raised to entry cost"])
          else (some (roundQ 4 (e * (96/100))), none, [])
        else (none, none, [])
      | none => (none, none, [])
    let total := sig1.1 + sig2a.1 + sig2b.1 + sig3a.1 + sig3b.1 + sig4.1 + sig5.1 +
      sig6a.1 + sig6b.1
    let signal_strength := min 100 total
    let recommendation :=
      if 70 ≤ signal_strength then "strong sell signal, take profit in batches"
      else if 50 ≤ signal_strength then "fairly strong sell signal, consider reducing"
      else if 30 ≤ signal_strength then "average signal, set a trailing stop"
      else "insufficient sell signal, can keep holding"
    some { signal_strength := signal_strength
           signals := sig1.2 ++ sig2a.2 ++ sig2b.2 ++ sig3a.2 ++ sig3b.2 ++ sig4.2 ++
             sig5.2 ++ sig6a.2 ++ sig6b.2 ++ sl_tp.2.2
           recommendation := recommendation
           stop_loss := sl_tp.1
           take_profit := sl_tp.2.1
           divergence := divergence
           ma5 := PVal.pround 4 ma5
           ma10 := PVal.pround 4 ma10
           macd_dif := PVal.pround 4 dif
           macd_dea := PVal.pround 4 dea
           kdj_k := PVal.pround 1 k
           kdj_d := PVal.pround 1 d
           kdj_j := PVal.pround 1 j
           rsi_14 := PVal.pround 1 rsi_14
           percent_b := PVal.pround 1 percent_b }

/-- The trailing window of `p` entries ending at position `i`. -/
def winAt (l : List ℚ) (p i : ℕ) : List ℚ := (l.take (i + 1)).drop (i + 1 - p)

/-- The plain rational values produced by the ewm recurrence
`y = (1 - a) * y + a * x` starting from running average `y`. -/
def ewmFoldQ (a : ℚ) : ℚ → List ℚ → List ℚ
  | _, [] => []
  | y, x :: t => ((1 - a) * y + a * x) :: ewmFoldQ a ((1 - a) * y + a * x) t

/-- The expected output of `ewmGo` on an all-finite input with running
average `y`, weight 1 and `nobs` observations consumed. -/
def ewmMaskQ (a : ℚ) (minp : ℕ) : ℕ → ℚ → List ℚ → List PVal
  | _, _, [] => []
  | nobs, y, x :: t =>
    (if minp ≤ nobs + 1 then PVal.val ((1 - a) * y + a * x) else PVal.nan) ::
      ewmMaskQ a minp (nobs + 1) ((1 - a) * y + a * x) t

/-- Three concrete bars on which both the hammer and the bullish engulfing
conditions hold simultaneously. -/
def candleCxDf : List Bar :=
  [Bar.mk 0 11 11 (21/2) (54/5) 1, Bar.mk 1 (21/2) (21/2) (51/5) (51/5) 1,
   Bar.mk 2 10 (56/5) 7 11 1]

/-- A flat input: `n` identical bars (all OHLC fields 1, volume 1). -/
def flatDf (n : ℕ) : List Bar := (List.range n).map (fun i => Bar.mk i 1 1 1 1 1)

/-- Two bars in two different calendar weeks (a Sunday and the following
Monday). -/
def resampleCxDf : List Bar := [Bar.mk 3 1 1 1 1 1, Bar.mk 4 1 1 1 1 1]

/-- Two bars with strictly increasing closes and zero volume. -/
def obvCxDf : List Bar := [Bar.mk 0 1 1 1 1 0, Bar.mk 1 2 2 2 2 0]

theorem PVal.sub_val (a b : ℚ) : PVal.sub (PVal.val a) (PVal.val b) = PVal.val (a - b) := by
  simp [PVal.sub, PVal.neg, PVal.add, sub_eq_add_neg]

/-- C1 (amended): `detect_bullish_candle_pattern` checks hammer, then bullish
engulfing, then morning star, and returns at the first true condition (the
first-evaluated true condition wins, hammer over engulfing over morning star);
it returns no pattern when no condition holds or fewer than 3 bars exist. -/
theorem C1_candle_first_match (df : List Bar) :
    detect_bullish_candle_pattern df = candle_pattern_first_match df := by
  unfold detect_bullish_candle_pattern candle_pattern_first_match
  cases hr : df.reverse with
  | nil => rfl
  | cons c3 t =>
    cases t with
    | nil => rfl
    | cons c2 t2 =>
      cases t2 with
      | nil => rfl
      | cons c1 t3 =>
        cases hh : hammerCond c3 <;> cases he : engulfCond c2 c3 <;>
          cases hm : morningStarCond c1 c2 c3 <;>
          simp [List.find?, hh, he, hm]

/-- C1 (counterexample): on `candleCxDf` both the hammer and the engulfing
conditions hold, and the source returns the hammer message (the first
evaluated), not the engulfing message that the claimed last-wins rule
would give. -/
theorem C1_counterexample :
    hammerCond (Bar.mk 2 10 (56/5) 7 11 1) = true ∧
    engulfCond (Bar.mk 1 (21/2) (21/2) (51/5) (51/5) 1) (Bar.mk 2 10 (56/5) 7 11 1) = true ∧
    detect_bullish_candle_pattern candleCxDf = some hammerMsg ∧
    candle_pattern_last_wins candleCxDf = some engulfMsg ∧
    detect_bullish_candle_pattern candleCxDf ≠ candle_pattern_last_wins candleCxDf := by
  have hham : hammerCond (Bar.mk 2 10 (56/5) 7 11 1) = true := by
    simp [hammerCond]
    norm_num
  have heng : engulfCond (Bar.mk 1 (21/2) (21/2) (51/5) (51/5) 1) (Bar.mk 2 10 (56/5) 7 11 1)
      = true := by
    simp [engulfCond]
    norm_num
  have hms : morningStarCond (Bar.mk 0 11 11 (21/2) (54/5) 1)
      (Bar.mk 1 (21/2) (21/2) (51/5) (51/5) 1) (Bar.mk 2 10 (56/5) 7 11 1) = false := by
    simp [morningStarCond]
    norm_num
    exact le_abs.mpr (Or.inl (by norm_num))
  have hmsg : hammerMsg ≠ engulfMsg := by decide
  refine ⟨hham, heng, ?_, ?_, ?_⟩
  · simp [detect_bullish_candle_pattern, candleCxDf, hham]
  · simp [candle_pattern_last_wins, candleCxDf, hms, heng]
  · simp [detect_bullish_candle_pattern, candle_pattern_last_wins, candleCxDf, hham, hms, heng,
      hmsg]

/-- C5: below the stated minimum bar count (20 for `calculate_period_score`,
60 for `analyze_weekly_trend` and `analyze_daily_buy_signals`, 30 for
`analyze_daily_sell_signals` and `detect_macd_divergence`), each function
returns its explicit insufficient-data sentinel (`none`, modelling the
`None` / error dictionary of the source, or the none-typed divergence with
the insufficient-data description); in the total model no exception can
occur. -/
theorem C5_insufficient_data_sentinels (df : List Bar) (ws wm ep wr : Option ℚ) (pt : String) :
    (df.length < 20 → calculate_period_score df = none) ∧
    (df.length < 60 → analyze_weekly_trend df = none) ∧
    (df.length < 60 → analyze_daily_buy_signals df ws wm = none) ∧
    (df.length < 30 → analyze_daily_sell_signals df ep wr = none) ∧
    (df.length < 30 → detect_macd_divergence df pt =
      { dtype := "none", description := insufficientMsg, strength := none }) := by
  refine ⟨fun h => ?_, fun h => ?_, fun h => ?_, fun h => ?_, fun h => ?_⟩
  · unfold calculate_period_score
    rw [if_pos h]
  · unfold analyze_weekly_trend
    rw [if_pos h]
  · unfold analyze_daily_buy_signals
    rw [if_pos h]
  · unfold analyze_daily_sell_signals
    rw [if_pos h]
  · unfold detect_macd_divergence
    rw [if_pos h]

/-- Witness for C5 at the empty input. -/
theorem C5_witness :
    calculate_period_score [] = none ∧
    analyze_weekly_trend [] = none ∧
    analyze_daily_buy_signals [] none none = none ∧
    analyze_daily_sell_signals [] none none = none ∧
    detect_macd_divergence [] "daily" =
      { dtype := "none", description := insufficientMsg, strength := none } := by
  obtain ⟨h1, h2, h3, h4, h5⟩ := C5_insufficient_data_sentinels [] none none none none "daily"
  exact ⟨h1 (by decide), h2 (by decide), h3 (by decide), h4 (by decide), h5 (by decide)⟩

/-- C9 (amended): for a daily series of at least 30 bars and a supplied
NONZERO entry price (Python truthiness treats a zero entry price as absent),
`analyze_daily_sell_signals` returns `stop_loss = round(0.96 * entry, 4)` and
the profit-banded take-profit (`>= 15` percent profit gives
`round(1.10 * entry, 4)`, `>= 10` percent gives the entry price, otherwise no
take-profit); with no entry price both fields are absent. -/
theorem C9_stop_take_profit (df : List Bar) (wr : Option ℚ) (e : ℚ)
    (hlen : 30 ≤ df.length) (he : e ≠ 0) :
    ∃ r, analyze_daily_sell_signals df (some e) wr = some r ∧
      r.stop_loss = some (roundQ 4 (e * (96/100))) ∧
      (15 ≤ ((df.map (fun b => b.close)).getLastD 0 - e) / e * 100 →
        r.take_profit = some (roundQ 4 (e * (110/100)))) ∧
      (10 ≤ ((df.map (fun b => b.close)).getLastD 0 - e) / e * 100 →
        ((df.map (fun b => b.close)).getLastD 0 - e) / e * 100 < 15 →
        r.take_profit = some e) ∧
      (((df.map (fun b => b.close)).getLastD 0 - e) / e * 100 < 10 →
        r.take_profit = none) ∧
      (∀ r2, analyze_daily_sell_signals df none wr = some r2 →
        r2.stop_loss = none ∧ r2.take_profit = none) := by
  unfold analyze_daily_sell_signals
  rw [if_neg (by omega)]
  refine ⟨_, rfl, ?_, ?_, ?_, ?_, ?_⟩
  · show (if e ≠ 0 then _ else _ : Option ℚ × Option ℚ × List String).1 = _
    rw [if_pos he]
    simp only []
    split_ifs <;> rfl
  · intro h15
    show (if e ≠ 0 then _ else _ : Option ℚ × Option ℚ × List String).2.1 = _
    rw [if_pos he]
    simp only []
    rw [if_pos h15]
  · intro h10 h15
    show (if e ≠ 0 then _ else _ : Option ℚ × Option ℚ × List String).2.1 = _
    rw [if_pos he]
    simp only []
    rw [if_neg (not_le.mpr h15), if_pos h10]
  · intro h10
    show (if e ≠ 0 then _ else _ : Option ℚ × Option ℚ × List String).2.1 = _
    rw [if_pos he]
    simp only []
    rw [if_neg (not_le.mpr (by linarith)), if_neg (not_le.mpr h10)]
  · intro r2 hr2
    rw [if_neg (by omega)] at hr2
    obtain rfl : _ = r2 := Option.some.inj hr2
    exact ⟨rfl, rfl⟩

/-- C9 (counterexample): with 30 flat bars and a SUPPLIED entry price of 0,
the source leaves both stop loss and take profit absent (Python truthiness),
while the claim as stated would demand `stop_loss = round(0.96 * 0, 4)`. -/
theorem C9_counterexample :
    ∃ r, analyze_daily_sell_signals (flatDf 30) (some 0) none = some r ∧
      r.stop_loss = none ∧ r.take_profit = none ∧
      r.stop_loss ≠ some (roundQ 4 ((0 : ℚ) * (96/100))) := by
  unfold analyze_daily_sell_signals
  rw [if_neg (by simp [flatDf])]
  have hz : ¬((0 : ℚ) ≠ 0) := by simp
  refine ⟨_, rfl, ?_, ?_, ?_⟩
  · show (if (0 : ℚ) ≠ 0 then _ else _ : Option ℚ × Option ℚ × List String).1 = _
    rw [if_neg hz]
  · show (if (0 : ℚ) ≠ 0 then _ else _ : Option ℚ × Option ℚ × List String).2.1 = _
    rw [if_neg hz]
  · show (if (0 : ℚ) ≠ 0 then _ else _ : Option ℚ × Option ℚ × List String).1 ≠ _
    rw [if_neg hz]
    simp

/-- Witness for C9 on 30 flat bars with entry price 1 (profit 0 percent, so
no take-profit and a stop loss at 0.96). -/
theorem C9_witness :
    ∃ r, analyze_daily_sell_signals (flatDf 30) (some 1) none = some r ∧
      r.stop_loss = some (roundQ 4 ((1 : ℚ) * (96/100))) ∧ r.take_profit = none := by
  obtain ⟨r, hr, hsl, -, -, htp, -⟩ :=
    C9_stop_take_profit (flatDf 30) none 1 (by simp [flatDf]) (by norm_num)
  refine ⟨r, hr, hsl, htp ?_⟩
  have : ((flatDf 30).map (fun b => b.close)).getLastD 0 = 1 := by
    simp only [flatDf, List.map_map, List.getLastD_eq_getLast?, List.getLast?_map]
    rw [show (List.range 30).getLast? = some 29 by decide]
    rfl
  rw [this]
  norm_num

theorem allVals_map_val (l : List ℚ) : allVals (l.map PVal.val) = some l := by
  induction l with
  | nil => rfl
  | cons q t ih => simp [allVals, ih]

theorem rollingOp_length (agg : List ℚ → PVal) (p : ℕ) (xs : List PVal) :
    (rollingOp agg p xs).length = xs.length := by
  simp [rollingOp]

theorem rollingOp_getElem (agg : List ℚ → PVal) (p : ℕ) (xs : List PVal) (i : ℕ)
    (hi : i < xs.length) :
    (rollingOp agg p xs)[i]? =
      some (if i + 1 < p then PVal.nan
        else
          match allVals ((xs.take (i + 1)).drop (i + 1 - p)) with
          | some qs => agg qs
          | none => PVal.nan) := by
  simp [rollingOp, List.getElem?_map, List.getElem?_range hi]

theorem winAt_map_val (l : List ℚ) (p i : ℕ) :
    allVals (((l.map PVal.val).take (i + 1)).drop (i + 1 - p)) = some (winAt l p i) := by
  rw [winAt, ← List.map_take, ← List.map_drop, allVals_map_val]

theorem winAt_length (l : List ℚ) (p i : ℕ) (h1 : p ≤ i + 1) (h2 : i < l.length) :
    (winAt l p i).length = p := by
  simp only [winAt, List.length_drop, List.length_take]
  omega

theorem rollingOp_getElem_map_val (agg : List ℚ → PVal) (p : ℕ) (l : List ℚ) (i : ℕ)
    (hp : p ≤ i + 1) (hi : i < l.length) :
    (rollingOp agg p (l.map PVal.val))[i]? = some (agg (winAt l p i)) := by
  rw [rollingOp_getElem agg p _ i (by simpa using hi), if_neg (by omega), winAt_map_val]

/-- C3: `calculate_ma` keeps the input length; with at least `p` entries the
first `p - 1` outputs are nan and from position `p - 1` on the output is the
arithmetic mean of the trailing `p` entries; with fewer than `p` entries every
output is nan; the empty series gives the empty result. -/
theorem C3_ma_boundary (qs : List ℚ) (p : ℕ) (hp : 1 ≤ p) :
    (calculate_ma (qs.map PVal.val) p).length = qs.length ∧
    (qs = [] → calculate_ma (qs.map PVal.val) p = []) ∧
    (p ≤ qs.length →
      (∀ i, i < p - 1 → (calculate_ma (qs.map PVal.val) p)[i]? = some PVal.nan) ∧
      (∀ i, p - 1 ≤ i → i < qs.length →
        (calculate_ma (qs.map PVal.val) p)[i]? =
          some (PVal.val ((winAt qs p i).sum / (p : ℚ))))) ∧
    (qs.length < p →
      ∀ i, i < qs.length → (calculate_ma (qs.map PVal.val) p)[i]? = some PVal.nan) := by
  refine ⟨by simp [calculate_ma, rollingOp_length], ?_, ?_, ?_⟩
  · rintro rfl
    simp [calculate_ma, rollingOp]
  · intro hlen
    constructor
    · intro i hi
      rw [calculate_ma, rollingOp_getElem meanAgg p _ i (by simp; omega), if_pos (by omega)]
    · intro i h1 h2
      rw [calculate_ma, rollingOp_getElem_map_val meanAgg p qs i (by omega) h2, meanAgg]
      congr 2
      rw [winAt_length qs p i (by omega) h2]
  · intro hlen i hi
    rw [calculate_ma, rollingOp_getElem meanAgg p _ i (by simpa using hi), if_pos (by omega)]

/-- Witness for C3 on the series `[1, 2, 3]` with period 2. -/
theorem C3_witness :
    (calculate_ma ([(1 : ℚ), 2, 3].map PVal.val) 2).length = 3 ∧
    (calculate_ma ([(1 : ℚ), 2, 3].map PVal.val) 2)[0]? = some PVal.nan ∧
    (calculate_ma ([(1 : ℚ), 2, 3].map PVal.val) 2)[2]? =
      some (PVal.val ((winAt [(1 : ℚ), 2, 3] 2 2).sum / (2 : ℚ))) := by
  obtain ⟨h1, -, h3, -⟩ := C3_ma_boundary [(1 : ℚ), 2, 3] 2 (by decide)
  obtain ⟨h4, h5⟩ := h3 (by decide)
  exact ⟨by simpa using h1, h4 0 (by decide), h5 2 (by decide) (by decide)⟩

theorem ratSqrt_zero : Rat.sqrt 0 = 0 := by
  have h := Rat.sqrt_eq (0 : ℚ)
  rw [mul_zero, abs_zero] at h
  exact h

theorem ratSqrt_pos_of_pos {q : ℚ} (hq : 0 < q) : 0 < Rat.sqrt q := by
  rw [Rat.sqrt, Rat.mkRat_eq_div]
  apply div_pos
  · have h1 : 0 < q.num := Rat.num_pos.mpr hq
    have h2 : 0 < q.num.toNat := by omega
    have h3 : 0 < Nat.sqrt q.num.toNat := Nat.sqrt_pos.mpr h2
    rw [Int.sqrt]
    exact_mod_cast h3
  · have h4 : 0 < q.den := q.pos
    have h5 : 0 < Nat.sqrt q.den := Nat.sqrt_pos.mpr h4
    exact_mod_cast h5

theorem ratSqrt_eq_zero_of {q : ℚ} (hq : 0 ≤ q) (h : Rat.sqrt q = 0) : q = 0 := by
  rcases eq_or_lt_of_le hq with h0 | h0
  · exact h0.symm
  · exact absurd h (ne_of_gt (ratSqrt_pos_of_pos h0))

theorem varOf_nonneg {qs : List ℚ} (h : 2 ≤ qs.length) : 0 ≤ varOf qs := by
  apply div_nonneg
  · apply List.sum_nonneg
    intro x hx
    obtain ⟨y, -, rfl⟩ := List.mem_map.mp hx
    positivity
  · have h2 : (2 : ℚ) ≤ (qs.length : ℚ) := by exact_mod_cast h
    linarith

theorem rolling_std_val (xs : List PVal) (p i : ℕ) (s : ℚ)
    (h : (rolling_std xs p)[i]? = some (PVal.val s)) :
    i < xs.length ∧ p ≤ i + 1 ∧
      ∃ qs, allVals ((xs.take (i + 1)).drop (i + 1 - p)) = some qs ∧ 2 ≤ qs.length ∧
        s = Rat.sqrt (varOf qs) := by
  have hi : i < xs.length := by
    by_contra hc
    have hn : (rolling_std xs p)[i]? = none := by
      apply List.getElem?_eq_none
      rw [rolling_std, rollingOp_length]
      omega
    rw [hn] at h
    exact Option.noConfusion h
  rw [rolling_std, rollingOp_getElem _ _ _ _ hi] at h
  have h2 := Option.some.inj h
  by_cases hp : i + 1 < p
  · rw [if_pos hp] at h2
    exact absurd h2 (by simp)
  rw [if_neg hp] at h2
  refine ⟨hi, by omega, ?_⟩
  cases hv : allVals ((xs.take (i + 1)).drop (i + 1 - p)) with
  | none =>
    rw [hv] at h2
    exact absurd h2 (by simp)
  | some qs =>
    rw [hv] at h2
    simp only [] at h2
    rw [stdAgg] at h2
    by_cases hq : qs.length < 2
    · rw [if_pos hq] at h2
      exact absurd h2 (by simp)
    · rw [if_neg hq] at h2
      exact ⟨qs, rfl, by omega, (PVal.val.inj h2).symm⟩

theorem rolling_std_val_nonneg (xs : List PVal) (p i : ℕ) (s : ℚ)
    (h : (rolling_std xs p)[i]? = some (PVal.val s)) : 0 ≤ s := by
  obtain ⟨-, -, qs, -, -, rfl⟩ := rolling_std_val xs p i s h
  exact Rat.sqrt_nonneg _


/-- C6: wherever the three Bollinger bands are finite, `lower ≤ middle ≤ upper`
holds, and any two bands coincide exactly at positions where the rolling
standard deviation is zero. -/
theorem C6_boll_ordering (df : List Bar) (i : ℕ) (u m lo : ℚ)
    (hu : (calculate_boll df 20 2).upper[i]? = some (PVal.val u))
    (hm : (calculate_boll df 20 2).middle[i]? = some (PVal.val m))
    (hl : (calculate_boll df 20 2).lower[i]? = some (PVal.val lo)) :
    lo ≤ m ∧ m ≤ u ∧
    (m = u ↔ (rolling_std (df.map (fun b => PVal.val b.close)) 20)[i]? = some (PVal.val 0)) ∧
    (lo = m ↔ (rolling_std (df.map (fun b => PVal.val b.close)) 20)[i]? = some (PVal.val 0)) ∧
    (lo = u ↔ (rolling_std (df.map (fun b => PVal.val b.close)) 20)[i]? = some (PVal.val 0)) := by
  simp only [calculate_boll] at hu hm hl
  rw [List.getElem?_zipWith] at hu hl
  rw [hm, List.getElem?_map] at hu hl
  cases hz : (rolling_std (df.map (fun b => PVal.val b.close)) 20)[i]? with
  | none =>
    rw [hz] at hu
    simp at hu
  | some w =>
    rw [hz] at hu hl
    simp only [Option.map_some'] at hu hl
    cases w with
    | nan =>
      norm_num [PVal.mul, PVal.add] at hu
      exact PVal.noConfusion hu
    | pinf =>
      norm_num [PVal.mul, PVal.add] at hu
      exact PVal.noConfusion hu
    | ninf =>
      norm_num [PVal.mul, PVal.add] at hu
      exact PVal.noConfusion hu
    | val s =>
      have hs : 0 ≤ s := rolling_std_val_nonneg _ _ _ _ hz
      have hu2 : m + 2 * s = u := by
        simp [PVal.mul, PVal.add] at hu
        linarith
      have hl2 : m - 2 * s = lo := by
        simp [PVal.mul, PVal.sub, PVal.neg, PVal.add] at hl
        linarith
      have hiff : (some (PVal.val s) = some (PVal.val 0) : Prop) ↔ s = 0 := by
        simp
      refine ⟨by linarith, by linarith, ?_, ?_, ?_⟩
      · rw [hiff]
        constructor
        · intro h4
          linarith
        · intro h4
          rw [h4] at hu2
          linarith
      · rw [hiff]
        constructor
        · intro h4
          linarith
        · intro h4
          rw [h4] at hl2
          linarith
      · rw [hiff]
        constructor
        · intro h4
          linarith
        · intro h4
          rw [h4] at hu2 hl2
          linarith

theorem list_sum_sq_zero {l : List ℚ} (hnn : ∀ x ∈ l, 0 ≤ x) (h : l.sum = 0) :
    ∀ x ∈ l, x = 0 := by
  induction l with
  | nil => simp
  | cons a t ih =>
    have ha : 0 ≤ a := hnn a (by simp)
    have ht : ∀ x ∈ t, 0 ≤ x := fun x hx => hnn x (by simp [hx])
    have hts : 0 ≤ t.sum := List.sum_nonneg ht
    simp only [List.sum_cons] at h
    have ha0 : a = 0 := by linarith
    have hts0 : t.sum = 0 := by linarith
    intro x hx
    rcases List.mem_cons.mp hx with rfl | hx2
    · exact ha0
    · exact ih ht hts0 x hx2

theorem varOf_eq_zero_all_eq {qs : List ℚ} (h2 : 2 ≤ qs.length) (h : varOf qs = 0) :
    ∀ x ∈ qs, x = qs.sum / (qs.length : ℚ) := by
  have hden : ((qs.length : ℚ) - 1) ≠ 0 := by
    have hc : (2 : ℚ) ≤ (qs.length : ℚ) := by exact_mod_cast h2
    intro hzero
    linarith
  rw [varOf, div_eq_zero_iff] at h
  rcases h with hS | hc
  · intro x hx
    have hmem : (x - qs.sum / (qs.length : ℚ)) ^ 2 ∈
        qs.map (fun y => (y - qs.sum / (qs.length : ℚ)) ^ 2) := List.mem_map_of_mem _ hx
    have hz := list_sum_sq_zero (fun z hz => by
      obtain ⟨y, -, rfl⟩ := List.mem_map.mp hz
      positivity) hS _ hmem
    have hx0 : x - qs.sum / (qs.length : ℚ) = 0 := by
      have := (pow_eq_zero_iff (two_ne_zero)).mp hz
      exact this
    linarith
  · exact absurd hc hden

theorem winAt_getElem_last (l : List ℚ) (p i : ℕ) (h1 : p ≤ i + 1) (h2 : i < l.length)
    (hp : 1 ≤ p) : (winAt l p i)[p - 1]? = l[i]? := by
  rw [winAt, List.getElem?_drop, List.getElem?_take]
  rw [if_pos (by omega)]
  congr 1
  omega

theorem rollingOp_val_inv (agg : List ℚ → PVal) (p : ℕ) (l : List ℚ) (i : ℕ) (z : PVal)
    (h : (rollingOp agg p (l.map PVal.val))[i]? = some z) (hz : z ≠ PVal.nan) :
    i < l.length ∧ p ≤ i + 1 ∧ z = agg (winAt l p i) := by
  have hi : i < l.length := by
    by_contra hc
    have hn : (rollingOp agg p (l.map PVal.val))[i]? = none := by
      apply List.getElem?_eq_none
      rw [rollingOp_length]
      simp
      omega
    rw [hn] at h
    exact Option.noConfusion h
  rw [rollingOp_getElem _ _ _ _ (by simpa using hi)] at h
  have h2 := Option.some.inj h
  by_cases hip : i + 1 < p
  · rw [if_pos hip] at h2
    exact absurd h2.symm hz
  · rw [if_neg hip, winAt_map_val] at h2
    exact ⟨hi, by omega, h2.symm⟩

theorem foldl_max_ge (q : ℚ) (t : List ℚ) : ∀ x ∈ q :: t, x ≤ t.foldl max q := by
  induction t generalizing q with
  | nil =>
    intro x hx
    simp at hx
    simp [hx]
  | cons b t2 ih =>
    intro x hx
    have hstep : List.foldl max q (b :: t2) = List.foldl max (max q b) t2 := rfl
    rw [hstep]
    rcases List.mem_cons.mp hx with rfl | hx2
    · exact le_trans (le_max_left x b) (ih (max x b) _ (by simp))
    · rcases List.mem_cons.mp hx2 with rfl | hx3
      · exact le_trans (le_max_right q x) (ih (max q x) _ (by simp))
      · exact ih (max q b) x (by simp [hx3])

theorem foldl_min_le (q : ℚ) (t : List ℚ) : ∀ x ∈ q :: t, t.foldl min q ≤ x := by
  induction t generalizing q with
  | nil =>
    intro x hx
    simp at hx
    simp [hx]
  | cons b t2 ih =>
    intro x hx
    have hstep : List.foldl min q (b :: t2) = List.foldl min (min q b) t2 := rfl
    rw [hstep]
    rcases List.mem_cons.mp hx with rfl | hx2
    · exact le_trans (ih (min x b) _ (by simp)) (min_le_left x b)
    · rcases List.mem_cons.mp hx2 with rfl | hx3
      · exact le_trans (ih (min q x) _ (by simp)) (min_le_right q x)
      · exact ih (min q b) x (by simp [hx3])

theorem maxAgg_val_ge {qs : List ℚ} {x z : ℚ} (hagg : PVal.val x = maxAgg qs) (hz : z ∈ qs) :
    z ≤ x := by
  cases qs with
  | nil => simp [maxAgg] at hagg
  | cons q t =>
    simp only [maxAgg] at hagg
    rw [PVal.val.inj hagg]
    exact foldl_max_ge q t z hz

theorem minAgg_val_le {qs : List ℚ} {x z : ℚ} (hagg : PVal.val x = minAgg qs) (hz : z ∈ qs) :
    x ≤ z := by
  cases qs with
  | nil => simp [minAgg] at hagg
  | cons q t =>
    simp only [minAgg] at hagg
    rw [PVal.val.inj hagg]
    exact foldl_min_le q t z hz

theorem percent_b_nan_of_std_zero (df : List Bar) (i : ℕ)
    (h : (rolling_std (df.map (fun b => PVal.val b.close)) 20)[i]? = some (PVal.val 0)) :
    (calculate_boll df 20 2).percent_b[i]? = some PVal.nan := by
  have hmm : df.map (fun b => PVal.val b.close) = (df.map (fun b => b.close)).map PVal.val := by
    simp [List.map_map]
  obtain ⟨hi, hp, qs, hqs, hlen2, hs⟩ := rolling_std_val _ _ _ _ h
  have hiL : i < (df.map (fun b => b.close)).length := by simpa using hi
  have hqe : winAt (df.map (fun b => b.close)) 20 i = qs := by
    rw [hmm] at hqs
    exact Option.some.inj ((winAt_map_val _ 20 i).symm.trans hqs)
  have hvar : varOf qs = 0 := ratSqrt_eq_zero_of (varOf_nonneg hlen2) hs.symm
  have heq := varOf_eq_zero_all_eq hlen2 hvar
  have hql : qs.length = 20 := by
    rw [← hqe]
    exact winAt_length _ 20 i hp hiL
  have h19 : 19 < qs.length := by omega
  obtain ⟨c, hc19⟩ : ∃ c, qs[19]? = some c := by
    rw [List.getElem?_eq_getElem h19]
    exact ⟨_, rfl⟩
  have hcmem : c ∈ qs := List.getElem?_mem hc19
  have hcval : c = qs.sum / (qs.length : ℚ) := heq c hcmem
  have hLi : (df.map (fun b => b.close))[i]? = some c := by
    rw [← winAt_getElem_last (df.map (fun b => b.close)) 20 i hp hiL (by norm_num), hqe]
    exact hc19
  have hmid : (calculate_ma (df.map (fun b => PVal.val b.close)) 20)[i]? =
      some (PVal.val (qs.sum / (qs.length : ℚ))) := by
    rw [hmm, calculate_ma, rollingOp_getElem_map_val meanAgg 20 _ i hp hiL, hqe]
    rfl
  have hcl : (df.map (fun b => PVal.val b.close))[i]? = some (PVal.val c) := by
    rw [hmm, List.getElem?_map, hLi]
    rfl
  simp only [calculate_boll]
  simp only [List.getElem?_map, List.getElem?_zipWith, hcl, hmid, h]
  rw [hcval]
  norm_num [PVal.mul, PVal.add, PVal.sub, PVal.neg, PVal.div]

theorem rsv_nan_of_flat_range (df : List Bar) (i : ℕ) (x : ℚ)
    (hvalid : ∀ b ∈ df, b.low ≤ b.close ∧ b.close ≤ b.high)
    (hmax : (rollingOp maxAgg 9 (df.map (fun b => PVal.val b.high)))[i]? = some (PVal.val x))
    (hmin : (rollingOp minAgg 9 (df.map (fun b => PVal.val b.low)))[i]? = some (PVal.val x)) :
    (kdj_rsv df 9)[i]? = some PVal.nan := by
  have hmh : df.map (fun b => PVal.val b.high) = (df.map (fun b => b.high)).map PVal.val := by
    simp [List.map_map]
  have hml : df.map (fun b => PVal.val b.low) = (df.map (fun b => b.low)).map PVal.val := by
    simp [List.map_map]
  have hmax2 := hmax
  have hmin2 := hmin
  rw [hmh] at hmax2
  rw [hml] at hmin2
  obtain ⟨hiH, hpH, hxmax⟩ := rollingOp_val_inv maxAgg 9 _ i _ hmax2 (by simp)
  obtain ⟨hiL, hpL, hxmin⟩ := rollingOp_val_inv minAgg 9 _ i _ hmin2 (by simp)
  have hidf : i < df.length := by simpa using hiH
  obtain ⟨b, hb⟩ : ∃ b, df[i]? = some b := by
    rw [List.getElem?_eq_getElem hidf]
    exact ⟨_, rfl⟩
  have hbmem : b ∈ df := List.getElem?_mem hb
  have hHmem : b.high ∈ winAt (df.map (fun b2 => b2.high)) 9 i := by
    have h8 : (winAt (df.map (fun b2 => b2.high)) 9 i)[8]? = some b.high := by
      rw [winAt_getElem_last _ 9 i hpH (by simpa using hidf) (by norm_num)]
      rw [List.getElem?_map, hb]
      rfl
    exact List.getElem?_mem h8
  have hLmem : b.low ∈ winAt (df.map (fun b2 => b2.low)) 9 i := by
    have h8 : (winAt (df.map (fun b2 => b2.low)) 9 i)[8]? = some b.low := by
      rw [winAt_getElem_last _ 9 i hpL (by simpa using hidf) (by norm_num)]
      rw [List.getElem?_map, hb]
      rfl
    exact List.getElem?_mem h8
  have hhx : b.high ≤ x := maxAgg_val_ge hxmax hHmem
  have hlx : x ≤ b.low := minAgg_val_le hxmin hLmem
  obtain ⟨hv1, hv2⟩ := hvalid b hbmem
  have hbc : b.close = x := le_antisymm (le_trans hv2 hhx) (le_trans hlx hv1)
  have hcl : (df.map (fun b2 => PVal.val b2.close))[i]? = some (PVal.val b.close) := by
    rw [List.getElem?_map, hb]
    rfl
  simp only [kdj_rsv]
  simp only [List.getElem?_map, List.getElem?_zipWith, hcl, hmax, hmin]
  rw [hbc]
  norm_num [PVal.mul, PVal.add, PVal.sub, PVal.neg, PVal.div]

theorem flatDf_map_val (n : ℕ) (f : Bar → ℚ) (hf : ∀ i, f (Bar.mk i 1 1 1 1 1) = 1) :
    (flatDf n).map (fun b => PVal.val (f b)) = (List.replicate n (1 : ℚ)).map PVal.val := by
  rw [flatDf, List.map_map, List.map_replicate]
  have hfun : ((fun b => PVal.val (f b)) ∘ fun i => Bar.mk i 1 1 1 1 1) =
      (fun _ => PVal.val 1) := by
    funext i
    simp [Function.comp, hf]
  rw [hfun, List.map_const']
  simp

theorem winAt_replicate (n p i : ℕ) (c : ℚ) (h1 : p ≤ i + 1) (h2 : i < n) :
    winAt (List.replicate n c) p i = List.replicate p c := by
  rw [winAt, List.take_replicate, List.drop_replicate]
  congr 1
  omega

theorem varOf_replicate (p : ℕ) (c : ℚ) : varOf (List.replicate p c) = 0 := by
  rcases Nat.eq_zero_or_pos p with rfl | hp
  · simp [varOf]
  rw [varOf, List.length_replicate, List.sum_replicate, nsmul_eq_mul]
  have hc : (p : ℚ) * c / (p : ℚ) = c :=
    mul_div_cancel_left₀ c (by exact_mod_cast hp.ne')
  rw [hc]
  simp

theorem rolling_std_flat (n i : ℕ) (h1 : 20 ≤ i + 1) (h2 : i < n) :
    (rolling_std ((flatDf n).map (fun b => PVal.val b.close)) 20)[i]? = some (PVal.val 0) := by
  rw [show (fun (b : Bar) => PVal.val b.close) = (fun b => PVal.val ((fun b2 => b2.close) b))
    from rfl]
  rw [flatDf_map_val n _ (fun j => rfl)]
  rw [rolling_std, rollingOp_getElem_map_val stdAgg 20 _ i h1 (by simpa using h2)]
  rw [winAt_replicate n 20 i 1 h1 h2]
  rw [stdAgg, if_neg (by simp)]
  rw [varOf_replicate 20 1, ratSqrt_zero]

theorem foldl_max_self (q : ℚ) (k : ℕ) : (List.replicate k q).foldl max q = q := by
  induction k with
  | zero => rfl
  | succ m ih => simpa [List.replicate_succ, max_self] using ih

theorem foldl_min_self (q : ℚ) (k : ℕ) : (List.replicate k q).foldl min q = q := by
  induction k with
  | zero => rfl
  | succ m ih => simpa [List.replicate_succ, min_self] using ih

theorem rolling_max_flat (n i : ℕ) (h1 : 9 ≤ i + 1) (h2 : i < n) :
    (rollingOp maxAgg 9 ((flatDf n).map (fun b => PVal.val b.high)))[i]? =
      some (PVal.val 1) := by
  rw [show (fun (b : Bar) => PVal.val b.high) = (fun b => PVal.val ((fun b2 => b2.high) b))
    from rfl]
  rw [flatDf_map_val n _ (fun j => rfl)]
  rw [rollingOp_getElem_map_val maxAgg 9 _ i h1 (by simpa using h2)]
  rw [winAt_replicate n 9 i 1 h1 h2]
  rw [show List.replicate 9 (1 : ℚ) = 1 :: List.replicate 8 1 from rfl, maxAgg]
  rw [foldl_max_self]

theorem rolling_min_flat (n i : ℕ) (h1 : 9 ≤ i + 1) (h2 : i < n) :
    (rollingOp minAgg 9 ((flatDf n).map (fun b => PVal.val b.low)))[i]? =
      some (PVal.val 1) := by
  rw [show (fun (b : Bar) => PVal.val b.low) = (fun b => PVal.val ((fun b2 => b2.low) b))
    from rfl]
  rw [flatDf_map_val n _ (fun j => rfl)]
  rw [rollingOp_getElem_map_val minAgg 9 _ i h1 (by simpa using h2)]
  rw [winAt_replicate n 9 i 1 h1 h2]
  rw [show List.replicate 9 (1 : ℚ) = 1 :: List.replicate 8 1 from rfl, minAgg]
  rw [foldl_min_self]

/-- C2 (corrected statement): at a position where the Bollinger band width is
zero (rolling std equals 0), `percent_b` is nan, the unguarded `0/0`; at a
KDJ position where the rolling maximum of high equals the rolling minimum of
low (for bars with `low ≤ close ≤ high`), the RSV value is nan as well.
Neither value is special-cased to a defined saturated value. -/
theorem C2_zero_range_degenerate (df : List Bar) (i : ℕ) :
    ((rolling_std (df.map (fun b => PVal.val b.close)) 20)[i]? = some (PVal.val 0) →
      (calculate_boll df 20 2).percent_b[i]? = some PVal.nan) ∧
    ((∀ b ∈ df, b.low ≤ b.close ∧ b.close ≤ b.high) →
      ∀ x, (rollingOp maxAgg 9 (df.map (fun b => PVal.val b.high)))[i]? = some (PVal.val x) →
        (rollingOp minAgg 9 (df.map (fun b => PVal.val b.low)))[i]? = some (PVal.val x) →
        (kdj_rsv df 9)[i]? = some PVal.nan) :=
  ⟨percent_b_nan_of_std_zero df i, fun hv x => rsv_nan_of_flat_range df i x hv⟩

/-- C2 (counterexample): on 20 flat bars the final `percent_b` and the RSV at
position 8 are nan, in particular not any finite saturated value. -/
theorem C2_counterexample :
    (calculate_boll (flatDf 20) 20 2).percent_b[19]? = some PVal.nan ∧
    (kdj_rsv (flatDf 20) 9)[8]? = some PVal.nan ∧
    (∀ q : ℚ, (calculate_boll (flatDf 20) 20 2).percent_b[19]? ≠ some (PVal.val q)) ∧
    (∀ q : ℚ, (kdj_rsv (flatDf 20) 9)[8]? ≠ some (PVal.val q)) := by
  have h1 : (calculate_boll (flatDf 20) 20 2).percent_b[19]? = some PVal.nan :=
    percent_b_nan_of_std_zero (flatDf 20) 19 (rolling_std_flat 20 19 (by omega) (by omega))
  have h2 : (kdj_rsv (flatDf 20) 9)[8]? = some PVal.nan :=
    rsv_nan_of_flat_range (flatDf 20) 8 1
      (by
        intro b hb
        rw [flatDf] at hb
        obtain ⟨j, -, rfl⟩ := List.mem_map.mp hb
        exact ⟨by norm_num, by norm_num⟩)
      (rolling_max_flat 20 8 (by omega) (by omega))
      (rolling_min_flat 20 8 (by omega) (by omega))
  refine ⟨h1, h2, ?_, ?_⟩
  · intro q hq
    rw [h1] at hq
    exact PVal.noConfusion (Option.some.inj hq)
  · intro q hq
    rw [h2] at hq
    exact PVal.noConfusion (Option.some.inj hq)

/-- Witness for C2 on 20 flat bars, at position 19 for the Bollinger part and
position 8 for the KDJ part. -/
theorem C2_witness :
    (calculate_boll (flatDf 20) 20 2).percent_b[19]? = some PVal.nan ∧
    (kdj_rsv (flatDf 20) 9)[8]? = some PVal.nan := by
  refine ⟨(C2_zero_range_degenerate (flatDf 20) 19).1
    (rolling_std_flat 20 19 (by omega) (by omega)),
    (C2_zero_range_degenerate (flatDf 20) 8).2
      (by
        intro b hb
        rw [flatDf] at hb
        obtain ⟨j, -, rfl⟩ := List.mem_map.mp hb
        exact ⟨by norm_num, by norm_num⟩)
      1
      (rolling_max_flat 20 8 (by omega) (by omega))
      (rolling_min_flat 20 8 (by omega) (by omega))⟩

theorem meanAgg_replicate (p : ℕ) (hp : 1 ≤ p) (c : ℚ) :
    meanAgg (List.replicate p c) = PVal.val c := by
  rw [meanAgg, List.sum_replicate, nsmul_eq_mul, List.length_replicate]
  congr 1
  exact mul_div_cancel_left₀ c (by exact_mod_cast (by omega : p ≠ 0))

theorem ma_flat (n i : ℕ) (h1 : 20 ≤ i + 1) (h2 : i < n) :
    (calculate_ma ((flatDf n).map (fun b => PVal.val b.close)) 20)[i]? =
      some (PVal.val 1) := by
  rw [show (fun (b : Bar) => PVal.val b.close) = (fun b => PVal.val ((fun b2 => b2.close) b))
    from rfl]
  rw [flatDf_map_val n _ (fun j => rfl)]
  rw [calculate_ma, rollingOp_getElem_map_val meanAgg 20 _ i h1 (by simpa using h2)]
  rw [winAt_replicate n 20 i 1 h1 h2, meanAgg_replicate 20 (by norm_num) 1]

/-- Witness for C6 on 20 flat bars at position 19 (all three bands equal 1,
the rolling standard deviation is 0). -/
theorem C6_witness :
    (calculate_boll (flatDf 20) 20 2).upper[19]? = some (PVal.val 1) ∧
    ((1 : ℚ) ≤ 1 ∧ (1 : ℚ) ≤ 1 ∧
      ((1 : ℚ) = 1 ↔ (rolling_std ((flatDf 20).map (fun b => PVal.val b.close)) 20)[19]? =
        some (PVal.val 0)) ∧
      ((1 : ℚ) = 1 ↔ (rolling_std ((flatDf 20).map (fun b => PVal.val b.close)) 20)[19]? =
        some (PVal.val 0)) ∧
      ((1 : ℚ) = 1 ↔ (rolling_std ((flatDf 20).map (fun b => PVal.val b.close)) 20)[19]? =
        some (PVal.val 0))) := by
  have hmid : (calculate_boll (flatDf 20) 20 2).middle[19]? = some (PVal.val 1) := by
    simp only [calculate_boll]
    exact ma_flat 20 19 (by omega) (by omega)
  have hstd := rolling_std_flat 20 19 (by omega) (by omega)
  have hup : (calculate_boll (flatDf 20) 20 2).upper[19]? = some (PVal.val 1) := by
    simp only [calculate_boll]
    simp only [List.getElem?_zipWith, List.getElem?_map, ma_flat 20 19 (by omega) (by omega),
      hstd]
    norm_num [PVal.mul, PVal.add]
  have hlo : (calculate_boll (flatDf 20) 20 2).lower[19]? = some (PVal.val 1) := by
    simp only [calculate_boll]
    simp only [List.getElem?_zipWith, List.getElem?_map, ma_flat 20 19 (by omega) (by omega),
      hstd]
    norm_num [PVal.mul, PVal.sub, PVal.neg, PVal.add]
  exact ⟨hup, C6_boll_ordering (flatDf 20) 19 1 1 1 hup hmid hlo⟩

theorem ewmGo_cons_val (a : ℚ) (minp : ℕ) (y : ℚ) (nobs : ℕ) (x : ℚ) (rest : List PVal) :
    ewmGo a minp (PVal.val y) 1 nobs (PVal.val x :: rest) =
      (if minp ≤ nobs + 1 then PVal.val ((1 - a) * y + a * x) else PVal.nan) ::
        ewmGo a minp (PVal.val ((1 - a) * y + a * x)) 1 (nobs + 1) rest := by
  have h1 : (1 : ℚ) * (1 - a) + a = 1 := by ring
  have hst : PVal.div (PVal.add (PVal.mul (PVal.val (1 * (1 - a))) (PVal.val y))
      (PVal.mul (PVal.val a) (PVal.val x))) (PVal.val (1 * (1 - a) + a)) =
      PVal.val ((1 - a) * y + a * x) := by
    simp only [PVal.mul, PVal.add, PVal.div, h1]
    rw [if_neg one_ne_zero, div_one]
    congr 1
    ring
  simp only [ewmGo, PVal.isObs, if_true]
  rw [hst]

theorem ewmGo_map_val (a : ℚ) (minp : ℕ) (xs : List ℚ) :
    ∀ (y : ℚ) (nobs : ℕ),
      ewmGo a minp (PVal.val y) 1 nobs (xs.map PVal.val) = ewmMaskQ a minp nobs y xs := by
  induction xs with
  | nil =>
    intro y nobs
    rfl
  | cons x t ih =>
    intro y nobs
    rw [List.map_cons, ewmGo_cons_val, ih]
    rfl

theorem ewmMean_cons_val (a : ℚ) (minp : ℕ) (x : ℚ) (t : List ℚ) :
    ewmMean a minp (PVal.val x :: t.map PVal.val) =
      (if minp ≤ 1 then PVal.val x else PVal.nan) :: ewmMaskQ a minp 1 x t := by
  rw [ewmMean]
  have hstep : ewmGo a minp PVal.nan 1 0 (PVal.val x :: t.map PVal.val) =
      (if minp ≤ 1 then PVal.val x else PVal.nan) ::
        ewmGo a minp (PVal.val x) 1 1 (t.map PVal.val) := by
    simp only [ewmGo, PVal.isObs]
    rfl
  rw [hstep, ewmGo_map_val]

theorem ewmMaskQ_length (a : ℚ) (minp : ℕ) (xs : List ℚ) :
    ∀ (nobs : ℕ) (y : ℚ), (ewmMaskQ a minp nobs y xs).length = xs.length := by
  induction xs with
  | nil =>
    intro nobs y
    rfl
  | cons x t ih =>
    intro nobs y
    simp only [ewmMaskQ, List.length_cons, ih]

theorem ewmMaskQ_getLast_pos (a : ℚ) (minp : ℕ) (ha0 : 0 < a) (ha1 : a < 1) (xs : List ℚ) :
    ∀ (nobs : ℕ) (y : ℚ), xs ≠ [] → (∀ d ∈ xs, 0 < d) → 0 ≤ y →
      ∃ g : ℚ, 0 < g ∧ (ewmMaskQ a minp nobs y xs).getLast? =
        some (if minp ≤ nobs + xs.length then PVal.val g else PVal.nan) := by
  induction xs with
  | nil =>
    intro nobs y hne
    exact absurd rfl hne
  | cons x t ih =>
    intro nobs y _ hpos hy
    have hx : 0 < x := hpos x (by simp)
    have hy2 : 0 < (1 - a) * y + a * x := by
      have h2 : 0 ≤ (1 - a) * y := mul_nonneg (by linarith) hy
      have h3 : 0 < a * x := mul_pos ha0 hx
      linarith
    cases t with
    | nil =>
      exact ⟨(1 - a) * y + a * x, hy2, by simp [ewmMaskQ]⟩
    | cons x2 t2 =>
      obtain ⟨g, hg, hgl⟩ := ih (nobs + 1) ((1 - a) * y + a * x) (by simp)
        (fun d hd => hpos d (by simp [hd])) (le_of_lt hy2)
      refine ⟨g, hg, ?_⟩
      have hshape : ewmMaskQ a minp nobs y (x :: x2 :: t2) =
          (if minp ≤ nobs + 1 then PVal.val ((1 - a) * y + a * x) else PVal.nan) ::
            (if minp ≤ nobs + 1 + 1 then
              PVal.val ((1 - a) * ((1 - a) * y + a * x) + a * x2) else PVal.nan) ::
            ewmMaskQ a minp (nobs + 1 + 1) ((1 - a) * ((1 - a) * y + a * x) + a * x2) t2 :=
        rfl
      have hshape2 : ewmMaskQ a minp (nobs + 1) ((1 - a) * y + a * x) (x2 :: t2) =
          (if minp ≤ nobs + 1 + 1 then
            PVal.val ((1 - a) * ((1 - a) * y + a * x) + a * x2) else PVal.nan) ::
            ewmMaskQ a minp (nobs + 1 + 1) ((1 - a) * ((1 - a) * y + a * x) + a * x2) t2 :=
        rfl
      rw [hshape, List.getLast?_cons_cons, ← hshape2, hgl]
      congr 2
      simp [List.length_cons]
      omega

theorem ewmMaskQ_zero_getLast (a : ℚ) (minp : ℕ) :
    ∀ (k nobs : ℕ), k ≠ 0 → (ewmMaskQ a minp nobs 0 (List.replicate k 0)).getLast? =
      some (if minp ≤ nobs + k then PVal.val 0 else PVal.nan) := by
  intro k
  induction k with
  | zero =>
    intro nobs h
    exact absurd rfl h
  | succ m ih =>
    intro nobs _
    have hz : (1 - a) * 0 + a * 0 = 0 := by ring
    cases hm : m with
    | zero =>
      simp [List.replicate_succ, ewmMaskQ, hz]
    | succ m2 =>
      have hrep : List.replicate (m2 + 1 + 1) (0 : ℚ) =
          0 :: List.replicate (m2 + 1) 0 := rfl
      rw [hrep]
      have hshape : ewmMaskQ a minp nobs 0 (0 :: List.replicate (m2 + 1) 0) =
          (if minp ≤ nobs + 1 then PVal.val ((1 - a) * 0 + a * 0) else PVal.nan) ::
            ewmMaskQ a minp (nobs + 1) ((1 - a) * 0 + a * 0) (List.replicate (m2 + 1) 0) :=
        rfl
      rw [hshape, hz]
      have htail := ih (nobs + 1) (by omega)
      rw [hm] at htail
      have hne : ewmMaskQ a minp (nobs + 1) 0 (List.replicate (m2 + 1) 0) ≠ [] := by
        intro hc
        have hlen := ewmMaskQ_length a minp (List.replicate (m2 + 1) 0) (nobs + 1) 0
        rw [hc] at hlen
        simp at hlen
      cases hc : ewmMaskQ a minp (nobs + 1) 0 (List.replicate (m2 + 1) 0) with
      | nil => exact absurd hc hne
      | cons z zs =>
        rw [List.getLast?_cons_cons]
        rw [hc] at htail
        rw [htail]
        have harith : nobs + 1 + (m2 + 1) = nobs + (m2 + 1 + 1) := by omega
        rw [harith]

theorem seriesDiff_map_val (x : ℚ) (t : List ℚ) :
    seriesDiff ((x :: t).map PVal.val) =
      PVal.nan :: (List.zipWith (fun p q => p - q) t (x :: t)).map PVal.val := by
  rw [List.map_cons, seriesDiff]
  congr 1
  rw [← List.map_cons, List.zipWith_map, List.map_zipWith]
  simp only [PVal.sub_val]

theorem chain_lt_diffs (x : ℚ) (t : List ℚ) (h : List.Chain' (· < ·) (x :: t)) :
    ∀ d ∈ List.zipWith (fun p q => p - q) t (x :: t), 0 < d := by
  induction t generalizing x with
  | nil => simp
  | cons y t2 ih =>
    rw [List.chain'_cons] at h
    obtain ⟨hxy, h2⟩ := h
    intro d hd
    rw [show List.zipWith (fun p q => p - q) (y :: t2) (x :: y :: t2) =
      (y - x) :: List.zipWith (fun p q => p - q) t2 (y :: t2) from rfl] at hd
    rcases List.mem_cons.mp hd with rfl | hd2
    · linarith
    · exact ih y h2 d hd2

theorem chain_gt_diffs (x : ℚ) (t : List ℚ) (h : List.Chain' (· > ·) (x :: t)) :
    ∀ d ∈ List.zipWith (fun p q => p - q) t (x :: t), d < 0 := by
  induction t generalizing x with
  | nil => simp
  | cons y t2 ih =>
    rw [List.chain'_cons] at h
    obtain ⟨hxy, h2⟩ := h
    intro d hd
    rw [show List.zipWith (fun p q => p - q) (y :: t2) (x :: y :: t2) =
      (y - x) :: List.zipWith (fun p q => p - q) t2 (y :: t2) from rfl] at hd
    rcases List.mem_cons.mp hd with rfl | hd2
    · simp at hxy
      linarith
    · exact ih y h2 d hd2

theorem gain_of_pos_diffs (x : ℚ) (t : List ℚ)
    (hpos : ∀ d ∈ List.zipWith (fun p q => p - q) t (x :: t), 0 < d) :
    (seriesDiff ((x :: t).map PVal.val)).map
        (fun d => if PVal.ltB (PVal.val 0) d then d else PVal.val 0) =
      PVal.val 0 :: (List.zipWith (fun p q => p - q) t (x :: t)).map PVal.val := by
  rw [seriesDiff_map_val, List.map_cons]
  refine congrArg₂ (· :: ·) ?_ ?_
  · simp [PVal.ltB]
  · rw [List.map_map]
    apply List.map_congr_left
    intro d hd
    have h0 : PVal.ltB (PVal.val 0) (PVal.val d) = true := by
      simp [PVal.ltB]
      exact hpos d hd
    simp [Function.comp, h0]

theorem loss_of_pos_diffs (x : ℚ) (t : List ℚ)
    (hpos : ∀ d ∈ List.zipWith (fun p q => p - q) t (x :: t), 0 < d) :
    ((seriesDiff ((x :: t).map PVal.val)).map
        (fun d => if PVal.ltB d (PVal.val 0) then d else PVal.val 0)).map PVal.neg =
      PVal.val 0 :: (List.replicate t.length (0 : ℚ)).map PVal.val := by
  rw [seriesDiff_map_val, List.map_cons, List.map_cons]
  refine congrArg₂ (· :: ·) ?_ ?_
  · simp [PVal.ltB, PVal.neg]
  · rw [List.map_map, List.map_map, List.map_replicate]
    have hlen : (List.zipWith (fun p q => p - q) t (x :: t)).length = t.length := by
      simp
    rw [← hlen, ← List.map_const' (List.zipWith (fun p q => p - q) t (x :: t)) (PVal.val 0)]
    apply List.map_congr_left
    intro d hd
    have h0 : PVal.ltB (PVal.val d) (PVal.val 0) = false := by
      simp [PVal.ltB]
      linarith [hpos d hd]
    simp [Function.comp, h0, PVal.neg]

theorem gain_of_neg_diffs (x : ℚ) (t : List ℚ)
    (hneg : ∀ d ∈ List.zipWith (fun p q => p - q) t (x :: t), d < 0) :
    (seriesDiff ((x :: t).map PVal.val)).map
        (fun d => if PVal.ltB (PVal.val 0) d then d else PVal.val 0) =
      PVal.val 0 :: (List.replicate t.length (0 : ℚ)).map PVal.val := by
  rw [seriesDiff_map_val, List.map_cons]
  refine congrArg₂ (· :: ·) ?_ ?_
  · simp [PVal.ltB]
  · rw [List.map_map, List.map_replicate]
    have hlen : (List.zipWith (fun p q => p - q) t (x :: t)).length = t.length := by
      simp
    rw [← hlen, ← List.map_const' (List.zipWith (fun p q => p - q) t (x :: t)) (PVal.val 0)]
    apply List.map_congr_left
    intro d hd
    have h0 : PVal.ltB (PVal.val 0) (PVal.val d) = false := by
      simp [PVal.ltB]
      linarith [hneg d hd]
    simp [Function.comp, h0]

theorem loss_of_neg_diffs (x : ℚ) (t : List ℚ)
    (hneg : ∀ d ∈ List.zipWith (fun p q => p - q) t (x :: t), d < 0) :
    ((seriesDiff ((x :: t).map PVal.val)).map
        (fun d => if PVal.ltB d (PVal.val 0) then d else PVal.val 0)).map PVal.neg =
      PVal.val 0 ::
        ((List.zipWith (fun p q => p - q) t (x :: t)).map (fun d => -d)).map PVal.val := by
  rw [seriesDiff_map_val, List.map_cons, List.map_cons]
  refine congrArg₂ (· :: ·) ?_ ?_
  · simp [PVal.ltB, PVal.neg]
  · rw [List.map_map, List.map_map, List.map_map]
    apply List.map_congr_left
    intro d hd
    have h0 : PVal.ltB (PVal.val d) (PVal.val 0) = true := by
      simp [PVal.ltB]
      exact hneg d hd
    simp [Function.comp, h0, PVal.neg]

theorem getLast?_cons_of_ne_nil {α : Type} (h : α) {l : List α} (hl : l ≠ []) :
    (h :: l).getLast? = l.getLast? := by
  cases l with
  | nil => exact absurd rfl hl
  | cons b t => exact List.getLast?_cons_cons

theorem rsi_last_inc (x : ℚ) (t : List ℚ) (hch : List.Chain' (· < ·) (x :: t))
    (hlen : 29 ≤ t.length) :
    (calculate_rsi ((x :: t).map PVal.val) 14)[(x :: t).length - 1]? =
      some (PVal.val 100) := by
  have hpos := chain_lt_diffs x t hch
  have hds_len : (List.zipWith (fun p q => p - q) t (x :: t)).length = t.length := by
    simp
  have hds_ne : List.zipWith (fun p q => p - q) t (x :: t) ≠ [] := by
    intro hc
    rw [hc] at hds_len
    simp at hds_len
    omega
  have h14a : (0 : ℚ) < 1 / (1 + (((14 : ℕ) : ℚ) - 1)) := by norm_num
  have h14b : (1 : ℚ) / (1 + (((14 : ℕ) : ℚ) - 1)) < 1 := by norm_num
  obtain ⟨g, hg, hgl⟩ := ewmMaskQ_getLast_pos (1 / (1 + (((14 : ℕ) : ℚ) - 1))) 14 h14a h14b
    (List.zipWith (fun p q => p - q) t (x :: t)) 1 0 hds_ne hpos le_rfl
  rw [hds_len, if_pos (by omega)] at hgl
  have hzl := ewmMaskQ_zero_getLast (1 / (1 + (((14 : ℕ) : ℚ) - 1))) 14 t.length 1 (by omega)
  rw [if_pos (by omega)] at hzl
  have hmq_len := ewmMaskQ_length (1 / (1 + (((14 : ℕ) : ℚ) - 1))) 14
    (List.zipWith (fun p q => p - q) t (x :: t)) 1 0
  rw [hds_len] at hmq_len
  have hmq_ne : ewmMaskQ (1 / (1 + (((14 : ℕ) : ℚ) - 1))) 14 1 0
      (List.zipWith (fun p q => p - q) t (x :: t)) ≠ [] := by
    intro hc
    rw [hc] at hmq_len
    simp at hmq_len
    omega
  have hz_len := ewmMaskQ_length (1 / (1 + (((14 : ℕ) : ℚ) - 1))) 14
    (List.replicate t.length (0 : ℚ)) 1 0
  rw [List.length_replicate] at hz_len
  have hz_ne : ewmMaskQ (1 / (1 + (((14 : ℕ) : ℚ) - 1))) 14 1 0
      (List.replicate t.length (0 : ℚ)) ≠ [] := by
    intro hc
    rw [hc] at hz_len
    simp at hz_len
    omega
  have hAG : (PVal.nan :: ewmMaskQ (1 / (1 + (((14 : ℕ) : ℚ) - 1))) 14 1 0
      (List.zipWith (fun p q => p - q) t (x :: t)))[t.length]? = some (PVal.val g) := by
    have h1 := (List.getLast?_eq_getElem? (PVal.nan :: ewmMaskQ
      (1 / (1 + (((14 : ℕ) : ℚ) - 1))) 14 1 0
      (List.zipWith (fun p q => p - q) t (x :: t)))).symm
    rw [List.length_cons, hmq_len, Nat.add_sub_cancel] at h1
    rw [h1, getLast?_cons_of_ne_nil _ hmq_ne]
    exact hgl
  have hAL : (PVal.nan :: ewmMaskQ (1 / (1 + (((14 : ℕ) : ℚ) - 1))) 14 1 0
      (List.replicate t.length (0 : ℚ)))[t.length]? = some (PVal.val 0) := by
    have h1 := (List.getLast?_eq_getElem? (PVal.nan :: ewmMaskQ
      (1 / (1 + (((14 : ℕ) : ℚ) - 1))) 14 1 0 (List.replicate t.length (0 : ℚ)))).symm
    rw [List.length_cons, hz_len, Nat.add_sub_cancel] at h1
    rw [h1, getLast?_cons_of_ne_nil _ hz_ne]
    exact hzl
  rw [show (x :: t).length - 1 = t.length from by simp]
  simp only [calculate_rsi]
  rw [gain_of_pos_diffs x t hpos, loss_of_pos_diffs x t hpos]
  rw [ewmMean_cons_val, ewmMean_cons_val]
  rw [if_neg (by omega : ¬ (14 ≤ 1))]
  rw [List.getElem?_map, List.getElem?_zipWith, hAG, hAL]
  have hdiv : PVal.div (PVal.val g) (PVal.val 0) = PVal.pinf := by
    rw [PVal.div, if_pos rfl, if_neg hg.ne', if_pos hg]
  simp only [Option.map_some']
  rw [hdiv]
  norm_num [PVal.add, PVal.div, PVal.sub, PVal.neg]

theorem rsi_last_dec (x : ℚ) (t : List ℚ) (hch : List.Chain' (· > ·) (x :: t))
    (hlen : 29 ≤ t.length) :
    (calculate_rsi ((x :: t).map PVal.val) 14)[(x :: t).length - 1]? =
      some (PVal.val 0) := by
  have hneg := chain_gt_diffs x t hch
  have hds_len : (List.zipWith (fun p q => p - q) t (x :: t)).length = t.length := by
    simp
  have hnds_len : ((List.zipWith (fun p q => p - q) t (x :: t)).map
      (fun d => -d)).length = t.length := by
    simp
  have hnds_ne : (List.zipWith (fun p q => p - q) t (x :: t)).map (fun d => -d) ≠ [] := by
    intro hc
    rw [hc] at hnds_len
    simp at hnds_len
    omega
  have hnds_pos : ∀ d ∈ (List.zipWith (fun p q => p - q) t (x :: t)).map (fun d => -d),
      0 < d := by
    intro d hd
    obtain ⟨y, hy, rfl⟩ := List.mem_map.mp hd
    have := hneg y hy
    linarith
  have h14a : (0 : ℚ) < 1 / (1 + (((14 : ℕ) : ℚ) - 1)) := by norm_num
  have h14b : (1 : ℚ) / (1 + (((14 : ℕ) : ℚ) - 1)) < 1 := by norm_num
  obtain ⟨L, hL, hLl⟩ := ewmMaskQ_getLast_pos (1 / (1 + (((14 : ℕ) : ℚ) - 1))) 14 h14a h14b
    ((List.zipWith (fun p q => p - q) t (x :: t)).map (fun d => -d)) 1 0 hnds_ne hnds_pos
    le_rfl
  rw [hnds_len, if_pos (by omega)] at hLl
  have hzl := ewmMaskQ_zero_getLast (1 / (1 + (((14 : ℕ) : ℚ) - 1))) 14 t.length 1 (by omega)
  rw [if_pos (by omega)] at hzl
  have hmq_len := ewmMaskQ_length (1 / (1 + (((14 : ℕ) : ℚ) - 1))) 14
    ((List.zipWith (fun p q => p - q) t (x :: t)).map (fun d => -d)) 1 0
  rw [hnds_len] at hmq_len
  have hmq_ne : ewmMaskQ (1 / (1 + (((14 : ℕ) : ℚ) - 1))) 14 1 0
      ((List.zipWith (fun p q => p - q) t (x :: t)).map (fun d => -d)) ≠ [] := by
    intro hc
    rw [hc] at hmq_len
    simp at hmq_len
    omega
  have hz_len := ewmMaskQ_length (1 / (1 + (((14 : ℕ) : ℚ) - 1))) 14
    (List.replicate t.length (0 : ℚ)) 1 0
  rw [List.length_replicate] at hz_len
  have hz_ne : ewmMaskQ (1 / (1 + (((14 : ℕ) : ℚ) - 1))) 14 1 0
      (List.replicate t.length (0 : ℚ)) ≠ [] := by
    intro hc
    rw [hc] at hz_len
    simp at hz_len
    omega
  have hAL : (PVal.nan :: ewmMaskQ (1 / (1 + (((14 : ℕ) : ℚ) - 1))) 14 1 0
      ((List.zipWith (fun p q => p - q) t (x :: t)).map (fun d => -d)))[t.length]? =
      some (PVal.val L) := by
    have h1 := (List.getLast?_eq_getElem? (PVal.nan :: ewmMaskQ
      (1 / (1 + (((14 : ℕ) : ℚ) - 1))) 14 1 0
      ((List.zipWith (fun p q => p - q) t (x :: t)).map (fun d => -d)))).symm
    rw [List.length_cons, hmq_len, Nat.add_sub_cancel] at h1
    rw [h1, getLast?_cons_of_ne_nil _ hmq_ne]
    exact hLl
  have hAG : (PVal.nan :: ewmMaskQ (1 / (1 + (((14 : ℕ) : ℚ) - 1))) 14 1 0
      (List.replicate t.length (0 : ℚ)))[t.length]? = some (PVal.val 0) := by
    have h1 := (List.getLast?_eq_getElem? (PVal.nan :: ewmMaskQ
      (1 / (1 + (((14 : ℕ) : ℚ) - 1))) 14 1 0 (List.replicate t.length (0 : ℚ)))).symm
    rw [List.length_cons, hz_len, Nat.add_sub_cancel] at h1
    rw [h1, getLast?_cons_of_ne_nil _ hz_ne]
    exact hzl
  rw [show (x :: t).length - 1 = t.length from by simp]
  simp only [calculate_rsi]
  rw [gain_of_neg_diffs x t hneg, loss_of_neg_diffs x t hneg]
  rw [ewmMean_cons_val, ewmMean_cons_val]
  rw [if_neg (by omega : ¬ (14 ≤ 1))]
  rw [List.getElem?_map, List.getElem?_zipWith, hAG, hAL]
  have hdiv : PVal.div (PVal.val 0) (PVal.val L) = PVal.val 0 := by
    rw [PVal.div, if_neg hL.ne']
    rw [zero_div]
  simp only [Option.map_some']
  rw [hdiv]
  norm_num [PVal.add, PVal.div, PVal.sub, PVal.neg]

/-- C4: for a strictly increasing close series of length at least 30, the
final RSI(14) value is greater than 70 (it saturates to exactly 100 through
the `avg_loss = 0`, `rs = +inf` float path); for a strictly decreasing series
it is below 30 (exactly 0). -/
theorem C4_rsi_saturation (up dn : List ℚ)
    (hup : List.Chain' (· < ·) up) (hul : 30 ≤ up.length)
    (hdn : List.Chain' (· > ·) dn) (hdl : 30 ≤ dn.length) :
    (∃ q, (calculate_rsi (up.map PVal.val) 14)[up.length - 1]? = some (PVal.val q) ∧
      70 < q ∧ q = 100) ∧
    (∃ q, (calculate_rsi (dn.map PVal.val) 14)[dn.length - 1]? = some (PVal.val q) ∧
      q < 30 ∧ q = 0) := by
  constructor
  · cases up with
    | nil => simp at hul
    | cons x t =>
      have hlt : 29 ≤ t.length := by
        simp at hul
        omega
      exact ⟨100, rsi_last_inc x t hup hlt, by norm_num, rfl⟩
  · cases dn with
    | nil => simp at hdl
    | cons x t =>
      have hlt : 29 ≤ t.length := by
        simp at hdl
        omega
      exact ⟨0, rsi_last_dec x t hdn hlt, by norm_num, rfl⟩

/-- Witness for C4 on the concrete strictly increasing series 0..29 and the
strictly decreasing series 29..0. -/
theorem C4_witness :
    (∃ q, (calculate_rsi (([0, 1, 2, 3, 4, 5, 6, 7, 8, 9, 10, 11, 12, 13, 14, 15, 16, 17,
        18, 19, 20, 21, 22, 23, 24, 25, 26, 27, 28, 29] : List ℚ).map PVal.val) 14)[
        ([0, 1, 2, 3, 4, 5, 6, 7, 8, 9, 10, 11, 12, 13, 14, 15, 16, 17, 18, 19, 20, 21,
          22, 23, 24, 25, 26, 27, 28, 29] : List ℚ).length - 1]? = some (PVal.val q) ∧
      70 < q ∧ q = 100) ∧
    (∃ q, (calculate_rsi (([29, 28, 27, 26, 25, 24, 23, 22, 21, 20, 19, 18, 17, 16, 15,
        14, 13, 12, 11, 10, 9, 8, 7, 6, 5, 4, 3, 2, 1, 0] : List ℚ).map PVal.val) 14)[
        ([29, 28, 27, 26, 25, 24, 23, 22, 21, 20, 19, 18, 17, 16, 15, 14, 13, 12, 11, 10,
          9, 8, 7, 6, 5, 4, 3, 2, 1, 0] : List ℚ).length - 1]? = some (PVal.val q) ∧
      q < 30 ∧ q = 0) :=
  C4_rsi_saturation
    [0, 1, 2, 3, 4, 5, 6, 7, 8, 9, 10, 11, 12, 13, 14, 15, 16, 17, 18, 19, 20, 21, 22,
      23, 24, 25, 26, 27, 28, 29]
    [29, 28, 27, 26, 25, 24, 23, 22, 21, 20, 19, 18, 17, 16, 15, 14, 13, 12, 11, 10, 9,
      8, 7, 6, 5, 4, 3, 2, 1, 0]
    (by norm_num [List.chain'_cons]) (by norm_num)
    (by norm_num [List.chain'_cons]) (by norm_num)

theorem scanl_head_add (s : ℚ) (l : List ℚ) :
    (List.scanl (· + ·) s l).head? = some s := by
  cases l with
  | nil => rfl
  | cons a t => rfl

theorem scanl_add_chain_lt (l : List ℚ) : ∀ (s : ℚ), (∀ d ∈ l, 0 < d) →
    List.Chain' (· < ·) (List.scanl (· + ·) s l) := by
  induction l with
  | nil =>
    intro s h
    simp
  | cons a t ih =>
    intro s h
    have ha : 0 < a := h a (by simp)
    have hct := ih (s + a) (fun d hd => h d (by simp [hd]))
    rw [List.scanl_cons, List.singleton_append, List.chain'_cons']
    refine ⟨?_, hct⟩
    intro y hy
    rw [scanl_head_add] at hy
    obtain rfl : s + a = y := Option.some.inj hy
    linarith

theorem scanl_add_chain_gt (l : List ℚ) : ∀ (s : ℚ), (∀ d ∈ l, d < 0) →
    List.Chain' (· > ·) (List.scanl (· + ·) s l) := by
  induction l with
  | nil =>
    intro s h
    simp
  | cons a t ih =>
    intro s h
    have ha : a < 0 := h a (by simp)
    have hct := ih (s + a) (fun d hd => h d (by simp [hd]))
    rw [List.scanl_cons, List.singleton_append, List.chain'_cons']
    refine ⟨?_, hct⟩
    intro y hy
    rw [scanl_head_add] at hy
    obtain rfl : s + a = y := Option.some.inj hy
    show s + a < s
    linarith

theorem zipWith_apply_fst {α β γ : Type} (f : α → γ) :
    ∀ (l1 : List α) (l2 : List β), l1.length ≤ l2.length →
      List.zipWith (fun v _ => f v) l1 l2 = l1.map f := by
  intro l1
  induction l1 with
  | nil =>
    intro l2 h
    simp
  | cons a t ih =>
    intro l2 h
    cases l2 with
    | nil => simp at h
    | cons b t2 =>
      simp only [List.zipWith_cons_cons, List.map_cons]
      rw [ih t2 (by simpa using h)]

theorem dir_of_pos_diffs (x : ℚ) (t : List ℚ)
    (hpos : ∀ d ∈ List.zipWith (fun p q => p - q) t (x :: t), 0 < d) :
    (seriesDiff ((x :: t).map PVal.val)).map (fun d =>
        if PVal.ltB (PVal.val 0) d then (1 : ℚ) else if PVal.ltB d (PVal.val 0) then -1
        else 0) =
      (0 : ℚ) :: (List.zipWith (fun p q => p - q) t (x :: t)).map (fun _ => (1 : ℚ)) := by
  rw [seriesDiff_map_val, List.map_cons]
  refine congrArg₂ (· :: ·) ?_ ?_
  · simp [PVal.ltB]
  · rw [List.map_map]
    apply List.map_congr_left
    intro d hd
    have h0 : PVal.ltB (PVal.val 0) (PVal.val d) = true := by
      simp [PVal.ltB]
      exact hpos d hd
    simp [Function.comp, h0]

theorem dir_of_neg_diffs (x : ℚ) (t : List ℚ)
    (hneg : ∀ d ∈ List.zipWith (fun p q => p - q) t (x :: t), d < 0) :
    (seriesDiff ((x :: t).map PVal.val)).map (fun d =>
        if PVal.ltB (PVal.val 0) d then (1 : ℚ) else if PVal.ltB d (PVal.val 0) then -1
        else 0) =
      (0 : ℚ) :: (List.zipWith (fun p q => p - q) t (x :: t)).map (fun _ => (-1 : ℚ)) := by
  rw [seriesDiff_map_val, List.map_cons]
  refine congrArg₂ (· :: ·) ?_ ?_
  · simp [PVal.ltB]
  · rw [List.map_map]
    apply List.map_congr_left
    intro d hd
    have h0 : PVal.ltB (PVal.val 0) (PVal.val d) = false := by
      simp [PVal.ltB]
      linarith [hneg d hd]
    have h1 : PVal.ltB (PVal.val d) (PVal.val 0) = true := by
      simp [PVal.ltB]
      exact hneg d hd
    simp [Function.comp, h0, h1]

theorem zipWith_mul_one_right : ∀ (l1 l2 : List ℚ), l1.length ≤ l2.length →
    List.zipWith (fun v dr => v * dr) l1 (l2.map (fun _ => (1 : ℚ))) = l1 := by
  intro l1
  induction l1 with
  | nil =>
    intro l2 h
    simp
  | cons a t ih =>
    intro l2 h
    cases l2 with
    | nil => simp at h
    | cons b t2 =>
      simp only [List.map_cons, List.zipWith_cons_cons, mul_one]
      rw [ih t2 (by simpa using h)]

theorem zipWith_mul_negone_right : ∀ (l1 l2 : List ℚ), l1.length ≤ l2.length →
    List.zipWith (fun v dr => v * dr) l1 (l2.map (fun _ => (-1 : ℚ))) =
      l1.map (fun v => v * -1) := by
  intro l1
  induction l1 with
  | nil =>
    intro l2 h
    simp
  | cons a t ih =>
    intro l2 h
    cases l2 with
    | nil => simp at h
    | cons b t2 =>
      simp only [List.map_cons, List.zipWith_cons_cons]
      rw [ih t2 (by simpa using h)]

/-- C8 (amended): for bars with positive volumes, strictly increasing closes
give a strictly increasing OBV and strictly decreasing closes give a strictly
decreasing OBV. -/
theorem C8_obv_monotone (df : List Bar) (hvol : ∀ b ∈ df, 0 < b.volume) :
    (List.Chain' (· < ·) (df.map (fun b => b.close)) →
      List.Chain' (· < ·) (calculate_obv df)) ∧
    (List.Chain' (· > ·) (df.map (fun b => b.close)) →
      List.Chain' (· > ·) (calculate_obv df)) := by
  cases df with
  | nil =>
    constructor
    · intro h
      simp [calculate_obv, seriesDiff, cumsumQ, List.scanl_nil]
    · intro h
      simp [calculate_obv, seriesDiff, cumsumQ, List.scanl_nil]
  | cons b bt =>
    have hvt : ∀ d ∈ bt.map (fun b2 => b2.volume), 0 < d := by
      intro d hd
      obtain ⟨b2, hb2, rfl⟩ := List.mem_map.mp hd
      exact hvol b2 (by simp [hb2])
    have hlen : (bt.map (fun b2 => b2.volume)).length ≤
        (List.zipWith (fun p q => p - q) (bt.map (fun b2 => b2.close))
          (b.close :: bt.map (fun b2 => b2.close))).length := by
      simp
    have hmm2 : (b :: bt).map (fun b2 => PVal.val b2.close) =
        (b.close :: bt.map (fun b2 => b2.close)).map PVal.val := by
      simp [List.map_map]
    constructor
    · intro hch
      simp only [List.map_cons] at hch
      have hpos := chain_lt_diffs b.close (bt.map (fun b2 => b2.close)) hch
      simp only [calculate_obv]
      rw [hmm2, dir_of_pos_diffs b.close (bt.map (fun b2 => b2.close)) hpos]
      simp only [List.map_cons]
      rw [List.zipWith_cons_cons, zipWith_mul_one_right _ _ hlen]
      rw [cumsumQ, List.scanl_cons, List.singleton_append, List.tail_cons]
      exact scanl_add_chain_lt _ _ hvt
    · intro hch
      simp only [List.map_cons] at hch
      have hneg := chain_gt_diffs b.close (bt.map (fun b2 => b2.close)) hch
      simp only [calculate_obv]
      rw [hmm2, dir_of_neg_diffs b.close (bt.map (fun b2 => b2.close)) hneg]
      simp only [List.map_cons]
      rw [List.zipWith_cons_cons, zipWith_mul_negone_right _ _ hlen]
      rw [cumsumQ, List.scanl_cons, List.singleton_append, List.tail_cons]
      apply scanl_add_chain_gt
      intro d hd
      obtain ⟨v, hv, rfl⟩ := List.mem_map.mp hd
      have := hvt v hv
      linarith

/-- C8 (counterexample): with zero volumes the closes [1, 2] are strictly
increasing but the OBV is [0, 0], not strictly increasing, refuting the claim
for arbitrary input series. -/
theorem C8_counterexample :
    List.Chain' (· < ·) (obvCxDf.map (fun b => b.close)) ∧
    calculate_obv obvCxDf = [0, 0] ∧
    ¬ List.Chain' (· < ·) (calculate_obv obvCxDf) := by
  have h1 : List.Chain' (· < ·) (obvCxDf.map (fun b => b.close)) := by
    simp [obvCxDf]
  have h2 : calculate_obv obvCxDf = [0, 0] := by
    simp only [obvCxDf, calculate_obv, seriesDiff, List.map_cons, List.map_nil,
      List.zipWith_cons_cons, List.zipWith_nil_right, PVal.sub_val]
    norm_num [PVal.ltB, cumsumQ, List.scanl_cons, List.scanl_nil]
  refine ⟨h1, h2, ?_⟩
  rw [h2]
  intro hc
  rw [List.chain'_cons] at hc
  exact absurd hc.1 (by norm_num)

/-- Witness for C8 on two rising bars with volume 1 and two falling bars with
volume 1. -/
theorem C8_witness :
    List.Chain' (· < ·) (calculate_obv [Bar.mk 0 1 1 1 1 1, Bar.mk 1 2 2 2 2 1]) ∧
    List.Chain' (· > ·) (calculate_obv [Bar.mk 0 2 2 2 2 1, Bar.mk 1 1 1 1 1 1]) := by
  constructor
  · apply (C8_obv_monotone [Bar.mk 0 1 1 1 1 1, Bar.mk 1 2 2 2 2 1]
      (by intro b2 hb2; simp at hb2; rcases hb2 with rfl | rfl <;> norm_num)).1
    simp
  · apply (C8_obv_monotone [Bar.mk 0 2 2 2 2 1, Bar.mk 1 1 1 1 1 1]
      (by intro b2 hb2; simp at hb2; rcases hb2 with rfl | rfl <;> norm_num)).2
    simp

theorem length_filterMap_eq {α β : Type} (f : α → Option β) (l : List α) :
    (l.filterMap f).length = (l.filter (fun a => (f a).isSome)).length := by
  induction l with
  | nil => rfl
  | cons a t ih =>
    cases hf : f a with
    | none => simp [List.filterMap_cons, List.filter_cons, hf, ih]
    | some b => simp [List.filterMap_cons, List.filter_cons, hf, ih]

theorem weekAgg_isSome_iff (data : List Bar) (w : ℕ) :
    (weekAgg data w).isSome = true ↔ w ∈ data.map (fun b => weekIndex b.date) := by
  rw [weekAgg]
  cases hg : data.filter (fun b => weekIndex b.date == w) with
  | nil =>
    simp only [Option.isSome_none]
    rw [List.filter_eq_nil_iff] at hg
    constructor
    · intro hc
      exact absurd hc (by simp)
    · intro hmem
      obtain ⟨b, hb, rfl⟩ := List.mem_map.mp hmem
      exact absurd (by simp : (weekIndex b.date == weekIndex b.date) = true) (hg b hb)
  | cons g0 g =>
    simp only [Option.isSome_some, true_iff]
    have hmem : g0 ∈ data.filter (fun b => weekIndex b.date == w) := by
      rw [hg]
      simp
    rw [List.mem_filter] at hmem
    have hw : weekIndex g0.date = w := by
      have := hmem.2
      simpa using this
    rw [← hw]
    exact List.mem_map_of_mem _ hmem.1

theorem resample_length_le_dedup (df : List Bar) :
    (resample_to_weekly df).length ≤
      ((df.map (fun b => weekIndex b.date)).dedup).length := by
  cases df with
  | nil => simp [resample_to_weekly]
  | cons b0 rest =>
    rw [resample_to_weekly]
    rw [length_filterMap_eq]
    apply List.Subperm.length_le
    apply List.Nodup.subperm
    · exact (List.nodup_range' _ _).filter _
    · intro w hw
      rw [List.mem_filter] at hw
      rw [List.mem_dedup]
      exact (weekAgg_isSome_iff (b0 :: rest) w).mp hw.2

/-- C7 (amended): `resample_to_weekly` produces at most as many rows as the
daily input, strictly fewer as soon as two daily bars share a calendar week,
and each weekly row aggregates exactly the bars of its calendar week with
open = first, high = max, low = min, close = last, volume = sum. -/
theorem C7_resample_weekly (df : List Bar) :
    ((resample_to_weekly df).length ≤ df.length) ∧
    (∀ i j : ℕ, i < j → j < df.length →
      (df.map (fun b => weekIndex b.date))[i]? = (df.map (fun b => weekIndex b.date))[j]? →
      (resample_to_weekly df).length < df.length) ∧
    (∀ wb ∈ resample_to_weekly df,
      ∃ g0 g, df.filter (fun b => weekIndex b.date == wb.week) = g0 :: g ∧
        wb.opn = g0.opn ∧
        wb.close = ((g0 :: g).getLast (List.cons_ne_nil g0 g)).close ∧
        wb.high = listMaxQ ((g0 :: g).map (fun b => b.high)) ∧
        wb.low = listMinQ ((g0 :: g).map (fun b => b.low)) ∧
        wb.volume = ((g0 :: g).map (fun b => b.volume)).sum) := by
  have hle := resample_length_le_dedup df
  have hdedup_le : ((df.map (fun b => weekIndex b.date)).dedup).length ≤ df.length := by
    have h1 := (List.dedup_sublist (df.map (fun b => weekIndex b.date))).length_le
    simpa using h1
  refine ⟨le_trans hle hdedup_le, ?_, ?_⟩
  · intro i j hij hj hsame
    have hnotnodup : ¬ (df.map (fun b => weekIndex b.date)).Nodup := by
      intro hnd
      have hi : i < (df.map (fun b => weekIndex b.date)).length := by
        simp
        omega
      exact absurd (List.getElem?_inj hi hnd hsame) (by omega)
    have hlt : ((df.map (fun b => weekIndex b.date)).dedup).length <
        (df.map (fun b => weekIndex b.date)).length := by
      rcases lt_or_eq_of_le
        (List.dedup_sublist (df.map (fun b => weekIndex b.date))).length_le with h | h
      · exact h
      · exact absurd (((List.dedup_sublist _).eq_of_length h) ▸
          List.nodup_dedup (df.map (fun b => weekIndex b.date))) hnotnodup
    have : (df.map (fun b => weekIndex b.date)).length = df.length := by simp
    omega
  · intro wb hwb
    cases df with
    | nil => simp [resample_to_weekly] at hwb
    | cons b0 rest =>
      rw [resample_to_weekly] at hwb
      obtain ⟨w, -, hagg⟩ := List.mem_filterMap.mp hwb
      rw [weekAgg] at hagg
      cases hg : (b0 :: rest).filter (fun b => weekIndex b.date == w) with
      | nil =>
        rw [hg] at hagg
        exact Option.noConfusion hagg
      | cons g0 g =>
        rw [hg] at hagg
        have hwb2 := (Option.some.inj hagg).symm
        subst hwb2
        refine ⟨g0, g, ?_, rfl, ?_, ?_, ?_, rfl⟩
        · exact hg
        · have hgl : ((g0 :: g).getLast (List.cons_ne_nil g0 g)).close =
              ((g0 :: g).getLast (List.cons_ne_nil g0 g)).close := rfl
          exact hgl.symm ▸ rfl
        · rw [List.map_cons]
          show (g.foldl (fun m b => max m b.high) g0.high) =
            (g.map (fun b => b.high)).foldl max g0.high
          rw [List.foldl_map]
        · rw [List.map_cons]
          show (g.foldl (fun m b => min m b.low) g0.low) =
            (g.map (fun b => b.low)).foldl min g0.low
          rw [List.foldl_map]

/-- C7 (counterexample): two daily bars on a Sunday and the following Monday
span two calendar weeks, yet the weekly resample has exactly as many rows as
the daily input, refuting the strict cardinality reduction. -/
theorem C7_counterexample :
    weekIndex 3 ≠ weekIndex 4 ∧
    resampleCxDf.length = 2 ∧
    (resample_to_weekly resampleCxDf).length = 2 ∧
    ¬ ((resample_to_weekly resampleCxDf).length < resampleCxDf.length) := by
  refine ⟨by decide, by decide, by decide, by decide⟩

/-- Witness for C7 on three bars inside one calendar week: the weekly output
is strictly shorter. -/
theorem C7_witness :
    (resample_to_weekly (flatDf 3)).length ≤ (flatDf 3).length ∧
    (resample_to_weekly (flatDf 3)).length < (flatDf 3).length := by
  obtain ⟨h1, h2, -⟩ := C7_resample_weekly (flatDf 3)
  refine ⟨h1, h2 0 1 (by decide) (by decide) ?_⟩
  decide

theorem getLast?_drop_eq {α : Type} (l : List α) (k : ℕ) (h : l.drop k ≠ []) :
    (l.drop k).getLast? = l.getLast? := by
  have hk : k < l.length := by
    by_contra hc
    exact h (List.drop_eq_nil_iff.mpr (by omega))
  rw [List.getLast?_eq_getElem?, List.getLast?_eq_getElem?, List.length_drop,
    List.getElem?_drop]
  have harith : k + (l.length - k - 1) = l.length - 1 := by omega
  rw [harith]

theorem listMinQ_le_mem {l : List ℚ} {x : ℚ} (hx : x ∈ l) : listMinQ l ≤ x := by
  cases l with
  | nil => simp at hx
  | cons q t => exact foldl_min_le q t x hx

theorem le_listMaxQ_mem {l : List ℚ} {x : ℚ} (hx : x ∈ l) : x ≤ listMaxQ l := by
  cases l with
  | nil => simp at hx
  | cons q t => exact foldl_max_ge q t x hx

theorem sorted_desc_mergeSort (l : List ℚ) :
    List.Sorted (· ≥ ·) (l.mergeSort (fun a b => decide (b ≤ a))) := by
  have h : List.Pairwise (fun a b : ℚ => decide (b ≤ a) = true)
      (l.mergeSort (fun a b => decide (b ≤ a))) :=
    List.sorted_mergeSort
      (fun a b c hab hbc => by
        simp only [decide_eq_true_eq] at *
        exact le_trans hbc hab)
      (fun a b => by
        simp only [Bool.or_eq_true, decide_eq_true_eq]
        exact le_total b a) l
  exact h.imp (fun hab => by simpa using hab)

theorem sorted_asc_mergeSort (l : List ℚ) :
    List.Sorted (· ≤ ·) (l.mergeSort (fun a b => decide (a ≤ b))) := by
  have h : List.Pairwise (fun a b : ℚ => decide (a ≤ b) = true)
      (l.mergeSort (fun a b => decide (a ≤ b))) :=
    List.sorted_mergeSort
      (fun a b c hab hbc => by
        simp only [decide_eq_true_eq] at *
        exact le_trans hab hbc)
      (fun a b => by
        simp only [Bool.or_eq_true, decide_eq_true_eq]
        exact le_total a b) l
  exact h.imp (fun hab => by simpa using hab)

theorem mergeSort_ne_nil_of_not_isEmpty {l : List ℚ} {le : ℚ → ℚ → Bool}
    (h : ¬(l.mergeSort le).isEmpty = true) : l.mergeSort le ≠ [] := by
  intro hnil
  exact h (by rw [hnil]; rfl)

theorem headD_mem_of_ne_nil {l : List ℚ} (h : l ≠ []) : l.headD 0 ∈ l := by
  rw [List.headD_eq_head?, List.head?_eq_head h]
  exact List.head_mem h

/-- C10: for every non-empty bar series in which each bar satisfies
low <= close <= high (and a positive lookback), `find_support_resistance`
returns `nearest_support <= latest close <= nearest_resistance`; the supports
list is sorted descending and each entry is below the latest close or (in the
fallback case) equals the window minimum low; the resistances list is sorted
ascending and each entry is above the latest close or (in the fallback case)
equals the window maximum high. -/
theorem C10_support_resistance (df : List Bar) (lookback : ℕ)
    (hne : df ≠ []) (hlb : 1 ≤ lookback)
    (hvalid : ∀ b ∈ df, b.low ≤ b.close ∧ b.close ≤ b.high) :
    ∀ r, r = find_support_resistance df lookback →
    ∀ recent, recent = df.drop (df.length -
        (if df.length < lookback then df.length else lookback)) →
      r.nearest_support ≤ (df.getLast hne).close ∧
      (df.getLast hne).close ≤ r.nearest_resistance ∧
      List.Sorted (· ≥ ·) r.supports ∧
      List.Sorted (· ≤ ·) r.resistances ∧
      (∀ s ∈ r.supports, s < (df.getLast hne).close ∨
        s = listMinQ (recent.map (fun b => b.low))) ∧
      (∀ t ∈ r.resistances, (df.getLast hne).close < t ∨
        t = listMaxQ (recent.map (fun b => b.high))) := by
  intro r hr recent hrec
  subst hr
  subst hrec
  have hdflen : 1 ≤ df.length := List.length_pos.mpr hne
  simp only [find_support_resistance]
  set lb := if df.length < lookback then df.length else lookback with hlbdef
  have hlb1 : 1 ≤ lb := by rw [hlbdef]; split <;> omega
  have hlble : lb ≤ df.length := by rw [hlbdef]; split <;> omega
  set recent := df.drop (df.length - lb) with hrecdef
  have hrne : recent ≠ [] := by
    rw [hrecdef, Ne, List.drop_eq_nil_iff]; omega
  have hglast : recent.getLast hrne = df.getLast hne := by
    have h3 := getLast?_drop_eq df (df.length - lb)
      (by rw [← hrecdef]; exact hrne)
    rw [← hrecdef, List.getLast?_eq_getLast recent hrne,
      List.getLast?_eq_getLast df hne] at h3
    exact Option.some.inj h3
  have hlatest : ∀ f : Bar → ℚ, (recent.map f).getLastD 0 = f (df.getLast hne) := by
    intro f
    rw [List.getLastD_eq_getLast?, List.getLast?_map,
      List.getLast?_eq_getLast recent hrne, hglast]
    rfl
  have hvlast := hvalid (df.getLast hne) (List.getLast_mem hne)
  have hlowmem : (df.getLast hne).low ∈ recent.map (fun b => b.low) :=
    List.mem_map_of_mem _ (hglast ▸ List.getLast_mem hrne)
  have hhighmem : (df.getLast hne).high ∈ recent.map (fun b => b.high) :=
    List.mem_map_of_mem _ (hglast ▸ List.getLast_mem hrne)
  rw [hlatest (fun b => b.close)]
  refine ⟨?_, ?_, ?_, ?_, ?_, ?_⟩
  · split
    · exact le_trans (listMinQ_le_mem hlowmem) hvlast.1
    · next hse =>
      have hne3 := mergeSort_ne_nil_of_not_isEmpty hse
      have hmem := (List.mergeSort_perm _ _).mem_iff.mp (headD_mem_of_ne_nil hne3)
      rw [List.mem_filter] at hmem
      exact le_of_lt (of_decide_eq_true hmem.2)
  · split
    · exact le_trans hvlast.2 (le_listMaxQ_mem hhighmem)
    · next hse =>
      have hne3 := mergeSort_ne_nil_of_not_isEmpty hse
      have hmem := (List.mergeSort_perm _ _).mem_iff.mp (headD_mem_of_ne_nil hne3)
      rw [List.mem_filter] at hmem
      exact le_of_lt (of_decide_eq_true hmem.2)
  · split
    · exact List.sorted_singleton _
    · exact List.Pairwise.sublist (List.take_sublist 3 _) (sorted_desc_mergeSort _)
  · split
    · exact List.sorted_singleton _
    · exact List.Pairwise.sublist (List.take_sublist 3 _) (sorted_asc_mergeSort _)
  · split
    · intro s hs
      right
      simpa using hs
    · intro s hs
      left
      have hmem := (List.mergeSort_perm _ _).mem_iff.mp (List.mem_of_mem_take hs)
      rw [List.mem_filter] at hmem
      exact of_decide_eq_true hmem.2
  · split
    · intro t ht
      right
      simpa using ht
    · intro t ht
      left
      have hmem := (List.mergeSort_perm _ _).mem_iff.mp (List.mem_of_mem_take ht)
      rw [List.mem_filter] at hmem
      exact of_decide_eq_true hmem.2

theorem C10_witness :
    ([Bar.mk 0 1 2 0 1 1] ≠ ([] : List Bar)) ∧ (1 ≤ 60) ∧
    (∀ b ∈ [Bar.mk 0 1 2 0 1 1], b.low ≤ b.close ∧ b.close ≤ b.high) ∧
    (find_support_resistance [Bar.mk 0 1 2 0 1 1] 60).nearest_support ≤
      (([Bar.mk 0 1 2 0 1 1].getLast (by simp)).close) :=
  ⟨by simp, by norm_num,
   by intro b hb; simp only [List.mem_singleton] at hb; subst hb; norm_num,
   (C10_support_resistance [Bar.mk 0 1 2 0 1 1] 60 (by simp) (by norm_num)
     (by intro b hb; simp only [List.mem_singleton] at hb; subst hb; norm_num)
     _ rfl _ rfl).1⟩
